import Mathlib

/-!
# nbdkit: the checkwrite filter and the handshake's common open routine

A shallow embedding of `filters/checkwrite/checkwrite.c` (open, the capability
functions and the write-like operations) and of `protocol_handshake` and
`protocol_common_open` from `server/protocol-handshake.c`.

Conventions of the embedding:

* `uint32_t` / `uint64_t` values are natural numbers; every C operation that can wrap is
  written with an explicit `% U32` / `% U64`.
* A byte buffer is a `List Nat`; "the first `n` bytes" of a buffer is `List.take n`.
* The wrapped backend (`next_ops`, `nxdata`) is an oracle that answers a call from the
  calls issued to it so far (its history) and the call's arguments.  Every call the
  filter issues is appended to that history, so the history doubles as the call trace.
* The loops of `checkwrite_trim_zero` take a `fuel` bound on their iterations; a run that
  is still looping when it is spent is reported with `ret = none`.
* `protocol_common_open` calls each backend method at most once, so there the backend is
  a record of answers, and the calls made are collected in a list.
-/

namespace Checkwrite

/-! ## Machine integers and helpers from absent headers -/

/-- Number of values of a `uint32_t`. -/
def U32 : Nat := 4294967296

/-- Number of values of a `uint64_t`. -/
def U64 : Nat := 18446744073709551616

/-- Unsigned 64-bit addition. -/
def add64 (a b : Nat) : Nat := (a + b) % U64

/-- Unsigned 64-bit subtraction `a - b` (wraps below zero). -/
def sub64 (a b : Nat) : Nat := (a % U64 + U64 - b % U64) % U64

/-- The assignment `count -= n` on a `uint32_t count`: the difference is truncated to
32 bits (wraps below zero). -/
def sub32 (a b : Nat) : Nat := (a % U32 + U32 - b % U32) % U32

/-- Modelled from the spec: `minmax.h` is not among the sources; `MIN (a, b)` is the
smaller of its two arguments. -/
def MIN (a b : Nat) : Nat := if a < b then a else b

/-- Modelled from the spec: `minmax.h` is not among the sources; `MIN3 (a, b, c)` is the
smallest of its three arguments. -/
def MIN3 (a b c : Nat) : Nat := MIN a (MIN b c)

/-- Modelled from the spec: `iszero.h` is not among the sources; `is_zero (buf, n)` holds
when every one of the first `n` bytes of `buf` is zero. -/
def is_zero (buf : List Nat) (n : Nat) : Bool := (buf.take n).all (fun b => b == 0)

/-- The test `memcmp (a, b, n) != 0`: the first `n` bytes of the two buffers differ. -/
def memcmp_ne (a b : List Nat) (n : Nat) : Bool := a.take n != b.take n

/-- Modelled from the spec: `errno.h` is not among the sources; the I/O error code the
data mismatch is mapped to (5 on Linux). -/
def EIO : Int := 5

/-- Modelled from the spec: `nbdkit-filter.h` is not among the sources; the ZERO bit of
an extent's type bitmask (`1 << 1` in nbdkit's public header). -/
def NBDKIT_EXTENT_ZERO : Nat := 2

/-- The constant `MAX_REQUEST_SIZE` of checkwrite.c: `64 * 1024 * 1024`. -/
def MAX_REQUEST_SIZE : Nat := 64 * 1024 * 1024

/-! ## The wrapped backend -/

/-- A `struct nbdkit_extent`. -/
structure Extent where
  offset : Nat
  length : Nat
  type : Nat
  deriving DecidableEq, Repr

/-- A call on the wrapped backend through `next_ops`.  The data operations of the backend
interface are all listed, so that a trace can say which of them were issued. -/
inductive Call where
  | pread (count offset flags : Nat)
  | pwrite (buf : List Nat) (count offset flags : Nat)
  | flush (flags : Nat)
  | trim (count offset flags : Nat)
  | zero (count offset flags : Nat)
  | can_extents
  | extents (count offset flags : Nat)
  deriving DecidableEq, Repr

/-- The calls that only read from the wrapped backend. -/
def Call.is_read : Call → Bool
  | .pread _ _ _ => true
  | .can_extents => true
  | .extents _ _ _ => true
  | _ => false

/-- The environment of one filter call: the wrapped backend's answers and the allocator.
Each answer may depend on the calls issued to the backend so far.

* `pread h count offset flags`: `.ok buf` when the call returns 0 having filled the
  buffer with `buf`, `.error e` when it returns -1 having set `*err = e`.
* `can_extents h`: the `int` the call returns.
* `extents h count offset flags`: `.ok exts` when the call returns 0 having put `exts`
  in the extent list, `.error e` when it returns -1 having set `*err = e`.
* `malloc h n`: `none` when the allocation succeeds, `some e` when `malloc` returns
  `NULL` with `errno = e`.
* `extents_new h start end`: `false` when `nbdkit_extents_new` returns `NULL`. -/
structure Env where
  pread : List Call → Nat → Nat → Nat → Except Int (List Nat)
  can_extents : List Call → Int
  extents : List Call → Nat → Nat → Nat → Except Int (List Extent)
  malloc : List Call → Nat → Option Int
  extents_new : List Call → Nat → Nat → Bool

/-- What a filter operation leaves behind: its return value (`none` when the run is still
looping after the fuel is spent), the value of `*err`, and the calls issued so far on the
wrapped backend (oldest first, the history it started from included). -/
structure Outcome where
  ret : Option Int
  err : Int
  trace : List Call
  deriving DecidableEq, Repr

/-- How a loop is left: control falls out of its bottom with the updated `count` and
`offset` (`*err` is not written on that path), or the function returns from inside it. -/
inductive Loop where
  | next (count offset : Nat) (trace : List Call)
  | ret (o : Outcome)
  deriving DecidableEq, Repr

/-! ## checkwrite.c -/

/-- The `data_does_not_match` helper: sets `*err = EIO`, returns -1. -/
def data_does_not_match (tr : List Call) : Outcome :=
  { ret := some (-1), err := EIO, trace := tr }

/-- The `checkwrite_pwrite` operation. -/
def checkwrite_pwrite (env : Env) (buf : List Nat) (count offset flags : Nat)
    (err : Int) (tr : List Call) : Outcome :=
  match env.malloc tr count with
  | some e => { ret := some (-1), err := e, trace := tr }
  | none =>
    match env.pread tr count offset 0 with
    | .error e => { ret := some (-1), err := e, trace := tr ++ [Call.pread count offset 0] }
    | .ok expected =>
      if memcmp_ne buf expected count then
        data_does_not_match (tr ++ [Call.pread count offset 0])
      else
        { ret := some 0, err := err, trace := tr ++ [Call.pread count offset 0] }

/-- The `checkwrite_flush` operation. -/
def checkwrite_flush (_env : Env) (_flags : Nat) (err : Int) (tr : List Call) : Outcome :=
  { ret := some 0, err := err, trace := tr }

/-- The inner `while (count > 0)` loop of `checkwrite_trim_zero` that reads an extent not
flagged ZERO (lines 192-209); `neo` is `next_extent_offset`. -/
def read_loop (env : Env) : Nat → Nat → Nat → Nat → Int → List Call → Loop
  | fuel, neo, count, offset, err, tr =>
    if count = 0 then Loop.next count offset tr
    else
      match fuel with
      | 0 => Loop.ret { ret := none, err := err, trace := tr }
      | fuel + 1 =>
        let buflen := MIN3 MAX_REQUEST_SIZE count (sub64 neo offset)
        match env.malloc tr buflen with
        | some e => Loop.ret { ret := some (-1), err := e, trace := tr }
        | none =>
          match env.pread tr buflen offset 0 with
          | .error e =>
            Loop.ret { ret := some (-1), err := e, trace := tr ++ [Call.pread buflen offset 0] }
          | .ok buf =>
            if !is_zero buf buflen then
              Loop.ret (data_does_not_match (tr ++ [Call.pread buflen offset 0]))
            else
              read_loop env fuel neo (sub32 count buflen) (add64 offset buflen) err
                (tr ++ [Call.pread buflen offset 0])

/-- The `for (i = 0; i < n && count > 0; ++i)` loop of `checkwrite_trim_zero` over the
extents of one query (lines 169-210); `fuel` bounds each inner read loop. -/
def extent_loop (env : Env) (fuel : Nat) : List Extent → Nat → Nat → Int → List Call → Loop
  | [], count, offset, _, tr => Loop.next count offset tr
  | e :: es, count, offset, err, tr =>
    if count = 0 then Loop.next count offset tr
    else if add64 e.offset e.length ≤ offset then extent_loop env fuel es count offset err tr
    else if e.offset > offset then Loop.next count offset tr
    else
      let next_extent_offset := add64 e.offset e.length
      if e.type &&& NBDKIT_EXTENT_ZERO ≠ 0 then
        let zerolen := MIN count (sub64 next_extent_offset offset)
        extent_loop env fuel es (sub32 count zerolen) (add64 offset zerolen) err tr
      else
        match read_loop env fuel next_extent_offset count offset err tr with
        | Loop.ret o => Loop.ret o
        | Loop.next count offset tr => extent_loop env fuel es count offset err tr

/-- The outer `while (count > 0)` loop of the extents path of `checkwrite_trim_zero`
(lines 153-213), followed by the final `return 0`. -/
def extents_path (env : Env) : Nat → Nat → Nat → Int → List Call → Outcome
  | fuel, count, offset, err, tr =>
    if count = 0 then { ret := some 0, err := err, trace := tr }
    else
      match fuel with
      | 0 => { ret := none, err := err, trace := tr }
      | fuel + 1 =>
        if !env.extents_new tr offset (add64 offset count) then
          { ret := some (-1), err := err, trace := tr }
        else
          match env.extents tr count offset 0 with
          | .error e =>
            { ret := some (-1), err := e, trace := tr ++ [Call.extents count offset 0] }
          | .ok exts =>
            match extent_loop env fuel exts count offset err
                (tr ++ [Call.extents count offset 0]) with
            | Loop.ret o => o
            | Loop.next count offset tr => extents_path env fuel count offset err tr

/-- The `while (count > 0)` loop of the slow path of `checkwrite_trim_zero`
(lines 229-238), followed by the final `return 0`. -/
def slow_path (env : Env) : Nat → Nat → Nat → Int → List Call → Outcome
  | fuel, count, offset, err, tr =>
    if count = 0 then { ret := some 0, err := err, trace := tr }
    else
      match fuel with
      | 0 => { ret := none, err := err, trace := tr }
      | fuel + 1 =>
        let n := MIN MAX_REQUEST_SIZE count
        match env.pread tr n offset 0 with
        | .error e => { ret := some (-1), err := e, trace := tr ++ [Call.pread n offset 0] }
        | .ok buf =>
          if !is_zero buf n then data_does_not_match (tr ++ [Call.pread n offset 0])
          else
            slow_path env fuel (sub32 count n) (add64 offset n) err
              (tr ++ [Call.pread n offset 0])

/-- The `checkwrite_trim_zero` operation, shared by trim and zero. -/
def checkwrite_trim_zero (env : Env) (fuel : Nat) (count offset flags : Nat)
    (err : Int) (tr : List Call) : Outcome :=
  if env.can_extents tr ≠ 0 then
    extents_path env fuel count offset err (tr ++ [Call.can_extents])
  else
    match env.malloc (tr ++ [Call.can_extents]) (MIN MAX_REQUEST_SIZE count) with
    | some e => { ret := some (-1), err := e, trace := tr ++ [Call.can_extents] }
    | none => slow_path env fuel count offset err (tr ++ [Call.can_extents])

/-- A request a client can send through the filter's write-like entry points. -/
inductive Request where
  | pwrite (buf : List Nat) (count offset flags : Nat)
  | flush (flags : Nat)
  | trim (count offset flags : Nat)
  | zero (count offset flags : Nat)
  deriving DecidableEq, Repr

/-- The `filter` table of checkwrite.c: which function serves which entry point. -/
def filter (env : Env) (fuel : Nat) (r : Request) (err : Int) (tr : List Call) : Outcome :=
  match r with
  | .pwrite buf count offset flags => checkwrite_pwrite env buf count offset flags err tr
  | .flush flags => checkwrite_flush env flags err tr
  | .trim count offset flags => checkwrite_trim_zero env fuel count offset flags err tr
  | .zero count offset flags => checkwrite_trim_zero env fuel count offset flags err tr

/-- The calls issued so far when a loop is left. -/
def Loop.trace : Loop → List Call
  | .next _ _ tr => tr
  | .ret o => o.trace

/-- The trace `tr2` extends `tr1` by read calls only. -/
def ReadsOnly (tr1 tr2 : List Call) : Prop :=
  ∃ new, tr2 = tr1 ++ new ∧ ∀ c ∈ new, Call.is_read c = true

/-- A wrapped backend none of whose calls fails: it holds the bytes `content`, answers
`can_extents` with `ce` and every extents query with `exts`; allocations succeed. -/
def sampleEnv (content : Nat → Nat) (ce : Int) (exts : List Extent) : Env :=
  { pread := fun _ count offset _ => .ok ((List.range count).map (fun i => content (offset + i)))
    can_extents := fun _ => ce
    extents := fun _ _ _ _ => .ok exts
    malloc := fun _ _ => none
    extents_new := fun _ _ _ => true }

/-- A backend state for traces: the stored bytes, as a list.  A `pwrite` overwrites, a
`trim` or `zero` clears, every other call leaves the bytes alone. -/
def sampleStep (s : List Nat) : Call → List Nat
  | .pwrite buf count offset _ => s.take offset ++ buf.take count ++ s.drop (offset + count)
  | .trim count offset _ => s.take offset ++ List.replicate count 0 ++ s.drop (offset + count)
  | .zero count offset _ => s.take offset ++ List.replicate count 0 ++ s.drop (offset + count)
  | _ => s

/-- A wrapped backend like `sampleEnv`, except that the answer to an extents query may
depend on the queried `count` and `offset`. -/
def queryEnv (content : Nat → Nat) (ce : Int) (exts : Nat → Nat → List Extent) : Env :=
  { pread := fun _ count offset _ => .ok ((List.range count).map (fun i => content (offset + i)))
    can_extents := fun _ => ce
    extents := fun _ count offset _ => .ok (exts count offset)
    malloc := fun _ _ => none
    extents_new := fun _ _ _ => true }

/-! ## Vocabulary of the claims about traces -/

/-- The error code with which the call `c`, issued after the history `h`, fails: a pread
or extents call for which the backend returns -1 having set that code. -/
def Env.fail_code (env : Env) (h : List Call) : Call → Option Int
  | .pread n o f =>
    match env.pread h n o f with
    | .error e => some e
    | .ok _ => none
  | .extents n o f =>
    match env.extents h n o f with
    | .error e => some e
    | .ok _ => none
  | _ => none

/-- The call `c`, issued after the history `h`, is a pread that succeeds and returns a
non-zero byte among the bytes asked for. -/
def Env.reads_nonzero (env : Env) (h : List Call) : Call → Bool
  | .pread n o f =>
    match env.pread h n o f with
    | .ok buf => !is_zero buf n
    | .error _ => false
  | _ => false

/-- The error code with which the call `c`, issued after the history `h`, must end a
zero-verification: the code of a failed call, EIO for a read of a non-zero byte. -/
def Env.stop_code (env : Env) (h : List Call) (c : Call) : Option Int :=
  match env.fail_code h c with
  | some e => some e
  | none => if env.reads_nonzero h c then some EIO else none

/-- None of the calls `new`, issued one after the other after the history `h`, fails or
reads a non-zero byte. -/
def quiet (env : Env) : List Call → List Call → Prop
  | _, [] => True
  | h, c :: cs => env.stop_code h c = none ∧ quiet env (h ++ [c]) cs

/-- The ranges `(offset, length)` of the preads among the calls `new`, issued after the
history `h`, that succeeded and returned only zero bytes. -/
def zero_reads (env : Env) : List Call → List Call → List (Nat × Nat)
  | _, [] => []
  | h, c :: cs =>
    (match c with
      | .pread n o f =>
        match env.pread h n o f with
        | .ok buf => if is_zero buf n then [(o, n)] else []
        | .error _ => []
      | _ => [])
    ++ zero_reads env (h ++ [c]) cs

/-- The extents flagged ZERO that the backend reported in answer to the extents calls
among `new`, issued after the history `h`. -/
def zero_extents (env : Env) : List Call → List Call → List Extent
  | _, [] => []
  | h, c :: cs =>
    (match c with
      | .extents n o f =>
        match env.extents h n o f with
        | .ok exts => exts.filter (fun e => e.type &&& NBDKIT_EXTENT_ZERO != 0)
        | .error _ => []
      | _ => [])
    ++ zero_extents env (h ++ [c]) cs

/-- The byte at offset `p` lies in one of the ranges `(offset, length)`. -/
def covered (ranges : List (Nat × Nat)) (p : Nat) : Prop :=
  ∃ r ∈ ranges, r.1 ≤ p ∧ p < r.1 + r.2

/-- The byte at offset `p` lies in one of the extents. -/
def in_extents (exts : List Extent) (p : Nat) : Prop :=
  ∃ e ∈ exts, e.offset ≤ p ∧ p < e.offset + e.length

/-- If the call is a pread, it asks for at most MAX_REQUEST_SIZE bytes, all of them inside
`[lo, hi)`. -/
def in_window (lo hi : Nat) : Call → Prop
  | .pread n o _ => n ≤ MAX_REQUEST_SIZE ∧ lo ≤ o ∧ o + n ≤ hi
  | _ => True

/-- The calls are preads of consecutive non-empty chunks, each of at most MAX_REQUEST_SIZE
bytes, that start at `lo` and end at `hi`. -/
def Consecutive : Nat → Nat → List Call → Prop
  | lo, hi, [] => lo = hi
  | lo, hi, c :: cs =>
    ∃ n, c = Call.pread n lo 0 ∧ 0 < n ∧ n ≤ MAX_REQUEST_SIZE ∧ Consecutive (lo + n) hi cs

/-- Two extents do not overlap. -/
def Extent.disjoint (a b : Extent) : Prop :=
  a.offset + a.length ≤ b.offset ∨ b.offset + b.length ≤ a.offset

/-- The outcome `o` of a run started after the history `tr` stops right: none of the
calls it issued failed or read a non-zero byte, or only the last one did and the run
returned -1 with the code of that call. -/
def Outcome.stops_right (env : Env) (tr : List Call) (o : Outcome) : Prop :=
  ∃ new, o.trace = tr ++ new ∧
    (quiet env tr new ∨
      ∃ pre c e, new = pre ++ [c] ∧ quiet env tr pre ∧
        env.stop_code (tr ++ pre) c = some e ∧ o.ret = some (-1) ∧ o.err = e)

/-- A loop started after the history `tr` stops right: when control falls out of it, none
of the calls it issued failed or read a non-zero byte; when the function returns from
inside it, the outcome stops right. -/
def Loop.stops_right (env : Env) (tr : List Call) : Loop → Prop
  | .next _ _ t => ∃ new, t = tr ++ new ∧ quiet env tr new
  | .ret o => o.stops_right env tr

/-- The trace `tr2` extends `tr1` by calls that all satisfy `P`. -/
def AllNew (P : Call → Prop) (tr1 tr2 : List Call) : Prop :=
  ∃ new, tr2 = tr1 ++ new ∧ ∀ c ∈ new, P c

/-- A wrapped backend like `sampleEnv` whose every pread fails with the error code `e`. -/
def failingEnv (e : Int) (ce : Int) (exts : List Extent) : Env :=
  { pread := fun _ _ _ _ => .error e
    can_extents := fun _ => ce
    extents := fun _ _ _ _ => .ok exts
    malloc := fun _ _ => none
    extents_new := fun _ _ _ => true }

/-! ## checkwrite.c: open and the capability functions -/

/-- What `checkwrite_open` returns: `NULL`, or the handle `NBDKIT_HANDLE_NOT_NEEDED`
(a macro of the absent `nbdkit-filter.h`, not `NULL`). -/
inductive Handle where
  | NULL
  | NBDKIT_HANDLE_NOT_NEEDED
  deriving DecidableEq, Repr

/-- A call of the wrapped backend's open through `next`: the `readonly` and `exportname`
arguments it is given. -/
structure OpenCall where
  readonly : Int
  exportname : String
  deriving DecidableEq, Repr

/-- What `checkwrite_open` leaves behind: the handle it returns and the calls it made of
the wrapped backend's open. -/
structure OpenOutcome where
  handle : Handle
  calls : List OpenCall
  deriving DecidableEq, Repr

/-- The `checkwrite_open` function; `next readonly exportname` is the `int` the wrapped
backend's open returns. -/
def checkwrite_open (next : Int → String → Int) (readonly : Int) (exportname : String)
    (is_tls : Int) : OpenOutcome :=
  if next 1 exportname = -1 then
    { handle := Handle.NULL, calls := [{ readonly := 1, exportname := exportname }] }
  else
    { handle := Handle.NBDKIT_HANDLE_NOT_NEEDED,
      calls := [{ readonly := 1, exportname := exportname }] }

/-- Modelled from the spec: `nbdkit-filter.h` is not among the sources; the "native"
answer of `can_fua` (2 in nbdkit's public header, after NONE = 0 and EMULATE = 1). -/
def NBDKIT_FUA_NATIVE : Int := 2

/-- Modelled from the spec: `nbdkit-filter.h` is not among the sources; the "native"
answer of `can_zero` (2 in nbdkit's public header, after NONE = 0 and EMULATE = 1). -/
def NBDKIT_ZERO_NATIVE : Int := 2

/-- The wrapped backend's own capability answers, as the capability functions of the
filter could query them through `next_ops` (each may depend on the calls so far). -/
structure NextCaps where
  can_write : List Call → Int
  can_flush : List Call → Int
  can_fua : List Call → Int
  can_trim : List Call → Int
  can_zero : List Call → Int

/-- What a capability function leaves behind: the `int` it returns and the calls issued
so far on the wrapped backend. -/
structure CapOutcome where
  ret : Int
  trace : List Call
  deriving DecidableEq, Repr

/-- The `checkwrite_can_write` function. -/
def checkwrite_can_write (_next_ops : NextCaps) (tr : List Call) : CapOutcome :=
  { ret := 1, trace := tr }

/-- The `checkwrite_can_flush` function. -/
def checkwrite_can_flush (_next_ops : NextCaps) (tr : List Call) : CapOutcome :=
  { ret := 1, trace := tr }

/-- The `checkwrite_can_fua` function. -/
def checkwrite_can_fua (_next_ops : NextCaps) (tr : List Call) : CapOutcome :=
  { ret := NBDKIT_FUA_NATIVE, trace := tr }

/-- The `checkwrite_can_trim` function. -/
def checkwrite_can_trim (_next_ops : NextCaps) (tr : List Call) : CapOutcome :=
  { ret := 1, trace := tr }

/-- The `checkwrite_can_zero` function. -/
def checkwrite_can_zero (_next_ops : NextCaps) (tr : List Call) : CapOutcome :=
  { ret := NBDKIT_ZERO_NATIVE, trace := tr }

/-! ## Sequences of requests -/

/-- Requests served one after the other through the filter: each starts with the error
code location holding `err` and with the history the previous one left. -/
def serve (env : Env) (fuel : Nat) : List Request → Int → List Call → List Outcome
  | [], _, _ => []
  | r :: rs, err, tr =>
    filter env fuel r err tr :: serve env fuel rs err (filter env fuel r err tr).trace

end Checkwrite

namespace Handshake

/-! ## Constants from absent headers -/

/-- Modelled from the spec: `protocol.h` is not among the sources; the has-flags bit of
the export flags (bit 0 in the NBD protocol). -/
def NBD_FLAG_HAS_FLAGS : Nat := 1

/-- Modelled from the spec: `protocol.h` is not among the sources; the read-only bit of
the export flags (bit 1 in the NBD protocol). -/
def NBD_FLAG_READ_ONLY : Nat := 2

/-- Modelled from the spec: `protocol.h` is not among the sources; the supports-flush bit
of the export flags (bit 2 in the NBD protocol). -/
def NBD_FLAG_SEND_FLUSH : Nat := 4

/-- Modelled from the spec: `protocol.h` is not among the sources; the supports-FUA bit of
the export flags (bit 3 in the NBD protocol). -/
def NBD_FLAG_SEND_FUA : Nat := 8

/-- Modelled from the spec: `protocol.h` is not among the sources; the rotational bit of
the export flags (bit 4 in the NBD protocol). -/
def NBD_FLAG_ROTATIONAL : Nat := 16

/-- Modelled from the spec: `protocol.h` is not among the sources; the supports-trim bit
of the export flags (bit 5 in the NBD protocol). -/
def NBD_FLAG_SEND_TRIM : Nat := 32

/-- Modelled from the spec: `protocol.h` is not among the sources; the
supports-write-zeroes bit of the export flags (bit 6 in the NBD protocol). -/
def NBD_FLAG_SEND_WRITE_ZEROES : Nat := 64

/-- Modelled from the spec: `protocol.h` is not among the sources; the
supports-structured-replies (DF) bit of the export flags (bit 7 in the NBD protocol). -/
def NBD_FLAG_SEND_DF : Nat := 128

/-- Modelled from the spec: `protocol.h` is not among the sources; the can-multi-conn bit
of the export flags (bit 8 in the NBD protocol). -/
def NBD_FLAG_CAN_MULTI_CONN : Nat := 256

/-- Modelled from the spec: `nbdkit-common.h` is not among the sources; the most
restrictive thread model, the least value of the ordered enumeration. -/
def NBDKIT_THREAD_MODEL_SERIALIZE_CONNECTIONS : Int := 0

/-! ## Connection and backend -/

/-- The fields of `struct connection` that `protocol_common_open` reads or writes. -/
structure Connection where
  readonly : Bool
  can_zero : Bool
  can_trim : Bool
  can_fua : Bool
  can_flush : Bool
  is_rotational : Bool
  can_multi_conn : Bool
  can_extents : Bool
  structured_replies : Bool
  deriving DecidableEq, Repr

/-- The backend chain as `protocol_common_open` sees it: the `int` (for `get_size` the
`int64_t`) each method returns.  `open_` is given the `readonly` argument it is called
with.  Every method is called at most once, in a fixed order, so one answer each is
general. -/
structure Backend where
  open_ : Bool → Int
  prepare : Int
  get_size : Int
  can_write : Int
  can_zero : Int
  can_trim : Int
  can_fua : Int
  can_flush : Int
  is_rotational : Int
  thread_model : Int
  can_multi_conn : Int
  can_extents : Int

/-- A call `protocol_common_open` makes on the backend chain. -/
inductive BackendCall where
  | open_ (readonly : Bool)
  | prepare
  | get_size
  | can_write
  | can_zero
  | can_trim
  | can_fua
  | can_flush
  | is_rotational
  | thread_model
  | can_multi_conn
  | can_extents
  deriving DecidableEq, Repr

/-- An error reported through `nbdkit_error` by `protocol_common_open` itself. -/
inductive Report where
  | invalid_size (size : Int)
  deriving DecidableEq, Repr

/-- The variables of a running `protocol_common_open`: the connection, the local `eflags`,
the backend calls made so far (oldest first) and the errors reported so far. -/
structure OpenState where
  conn : Connection
  eflags : Nat
  calls : List BackendCall
  reports : List Report
  deriving DecidableEq, Repr

/-- What `protocol_common_open` leaves behind: its return value, the connection, the
contents of the two output locations `*exportsize` and `*flags`, the backend calls made
and the errors reported. -/
structure OpenResult where
  ret : Int
  conn : Connection
  exportsize : Nat
  flags : Nat
  calls : List BackendCall
  reports : List Report
  deriving DecidableEq, Repr

/-- Note that the backend method `c` is being called. -/
def OpenState.call (s : OpenState) (c : BackendCall) : OpenState :=
  { s with calls := s.calls ++ [c] }

/-- A `return -1` of `protocol_common_open`: the output locations keep the contents
`exportsize`, `flags` they had on entry. -/
def OpenState.fail (s : OpenState) (exportsize flags : Nat) : OpenResult :=
  { ret := -1, conn := s.conn, exportsize := exportsize, flags := flags,
    calls := s.calls, reports := s.reports }

/-- The statement `if (c) { eflags |= flag; conn->field = true; }` of
`protocol_common_open`, where `set` is the assignment to the connection's field. -/
def OpenState.grant (s : OpenState) (c : Bool) (flag : Nat)
    (set : Connection → Connection) : OpenState :=
  if c then { s with eflags := s.eflags ||| flag, conn := set s.conn } else s

/-- Lines 105-129 of `protocol_common_open`: the `if (!conn->readonly)` block querying
`can_zero`, `can_trim`, `can_fua`.  `.error` is a `return -1` from inside the block. -/
def write_caps (backend : Backend) (s : OpenState) : Except OpenState OpenState :=
  if !s.conn.readonly then
    let s := s.call .can_zero
    if backend.can_zero = -1 then .error s
    else
    let s := s.grant (backend.can_zero != 0) NBD_FLAG_SEND_WRITE_ZEROES
      (fun c => { c with can_zero := true })
    let s := s.call .can_trim
    if backend.can_trim = -1 then .error s
    else
    let s := s.grant (backend.can_trim != 0) NBD_FLAG_SEND_TRIM
      (fun c => { c with can_trim := true })
    let s := s.call .can_fua
    if backend.can_fua = -1 then .error s
    else
    let s := s.grant (backend.can_fua != 0) NBD_FLAG_SEND_FUA
      (fun c => { c with can_fua := true })
    .ok s
  else .ok s

/-- Lines 147-157 of `protocol_common_open`: the thread-model test and the
`can_multi_conn` query inside it.  `.error` is a `return -1` from inside the block. -/
def multi_conn_caps (backend : Backend) (s : OpenState) : Except OpenState OpenState :=
  let s := s.call .thread_model
  if backend.thread_model > NBDKIT_THREAD_MODEL_SERIALIZE_CONNECTIONS then
    let s := s.call .can_multi_conn
    if backend.can_multi_conn = -1 then .error s
    else
    .ok (s.grant (backend.can_multi_conn != 0) NBD_FLAG_CAN_MULTI_CONN
      (fun c => { c with can_multi_conn := true }))
  else .ok s

/-- Lines 131-175 of `protocol_common_open`: everything after the `if (!conn->readonly)`
block; `size` is the local of that name. -/
def common_caps (backend : Backend) (size : Int) (exportsize flags : Nat)
    (s : OpenState) : OpenResult :=
  let s := s.call .can_flush
  if backend.can_flush = -1 then s.fail exportsize flags
  else
  let s := s.grant (backend.can_flush != 0) NBD_FLAG_SEND_FLUSH
    (fun c => { c with can_flush := true })
  let s := s.call .is_rotational
  if backend.is_rotational = -1 then s.fail exportsize flags
  else
  let s := s.grant (backend.is_rotational != 0) NBD_FLAG_ROTATIONAL
    (fun c => { c with is_rotational := true })
  match multi_conn_caps backend s with
  | .error s => s.fail exportsize flags
  | .ok s =>
  let s := s.call .can_extents
  if backend.can_extents = -1 then s.fail exportsize flags
  else
  let s := if backend.can_extents ≠ 0 then
      { s with conn := { s.conn with can_extents := true } }
    else s
  let s := if s.conn.structured_replies then
      { s with eflags := s.eflags ||| NBD_FLAG_SEND_DF }
    else s
  { ret := 0, conn := s.conn, exportsize := size.toNat, flags := s.eflags,
    calls := s.calls, reports := s.reports }

/-- The `protocol_common_open` routine.  `readonly` is the global of that name, `conn`
the connection on entry, `exportsize` and `flags` the contents of the two output
locations on entry. -/
def protocol_common_open (backend : Backend) (readonly : Bool) (conn : Connection)
    (exportsize flags : Nat) : OpenResult :=
  let s : OpenState :=
    { conn := conn, eflags := NBD_FLAG_HAS_FLAGS, calls := [], reports := [] }
  let s := s.call (.open_ readonly)
  if backend.open_ readonly = -1 then s.fail exportsize flags
  else
  let s := s.call .prepare
  if backend.prepare = -1 then s.fail exportsize flags
  else
  let s := s.call .get_size
  let size := backend.get_size
  if size = -1 then s.fail exportsize flags
  else if size < 0 then
    OpenState.fail { s with reports := s.reports ++ [Report.invalid_size size] } exportsize flags
  else
  let s := s.call .can_write
  if backend.can_write = -1 then s.fail exportsize flags
  else
  let s := s.grant (readonly || backend.can_write == 0) NBD_FLAG_READ_ONLY
    (fun c => { c with readonly := true })
  match write_caps backend s with
  | .error s => s.fail exportsize flags
  | .ok s => common_caps backend size exportsize flags s

/-! ## protocol_handshake -/

/-- What `protocol_handshake` does, step by step: the two lock operations and the two
variant exchanges, all defined outside protocol-handshake.c. -/
inductive HandshakeEvent where
  | lock_request
  | protocol_handshake_oldstyle
  | protocol_handshake_newstyle
  | unlock_request
  deriving DecidableEq, Repr

/-- What `protocol_handshake` leaves behind: its return value, the connection and the
steps it took, oldest first. -/
structure HandshakeResult (σ : Type) where
  ret : Int
  conn : σ
  events : List HandshakeEvent

/-- The `protocol_handshake` function.  `newstyle` is the global of that name; the two
variant exchanges are given as functions from the connection to their `int` result and
the connection they leave. -/
def protocol_handshake {σ : Type} (newstyle : Bool)
    (protocol_handshake_oldstyle protocol_handshake_newstyle : σ → Int × σ)
    (conn : σ) : HandshakeResult σ :=
  let events := [HandshakeEvent.lock_request]
  if !newstyle then
    { ret := (protocol_handshake_oldstyle conn).1
      conn := (protocol_handshake_oldstyle conn).2
      events := events ++ [HandshakeEvent.protocol_handshake_oldstyle]
        ++ [HandshakeEvent.unlock_request] }
  else
    { ret := (protocol_handshake_newstyle conn).1
      conn := (protocol_handshake_newstyle conn).2
      events := events ++ [HandshakeEvent.protocol_handshake_newstyle]
        ++ [HandshakeEvent.unlock_request] }

/-- Whether the request lock is held after the steps `evs`, starting from `held`:
`lock_request` takes it, `unlock_request` releases it. -/
def lock_held : Bool → List HandshakeEvent → Bool
  | held, [] => held
  | _, HandshakeEvent.lock_request :: evs => lock_held true evs
  | _, HandshakeEvent.unlock_request :: evs => lock_held false evs
  | held, _ :: evs => lock_held held evs

/-! ## Vocabulary of the claims about `protocol_common_open` -/

/-- The value the backend returns for a call. -/
def Backend.answer (b : Backend) : BackendCall → Int
  | .open_ ro => b.open_ ro
  | .prepare => b.prepare
  | .get_size => b.get_size
  | .can_write => b.can_write
  | .can_zero => b.can_zero
  | .can_trim => b.can_trim
  | .can_fua => b.can_fua
  | .can_flush => b.can_flush
  | .is_rotational => b.is_rotational
  | .thread_model => b.thread_model
  | .can_multi_conn => b.can_multi_conn
  | .can_extents => b.can_extents

/-- A call reports an error when it returns -1.  The `thread_model` query has no error
value: its result is a thread model, only ever compared with the most restrictive one. -/
def Backend.reports_error (b : Backend) (c : BackendCall) : Bool :=
  match c with
  | .thread_model => false
  | c => b.answer c == -1

/-- The optional group `can_zero, can_trim, can_fua` of the fixed order, kept or not. -/
def write_order (write_caps : Bool) : List BackendCall :=
  if write_caps then [.can_zero, .can_trim, .can_fua] else []

/-- The tail `can_flush, is_rotational, thread_model, [can_multi_conn], can_extents` of
the fixed order, the optional `can_multi_conn` kept or not. -/
def common_order (multi_conn : Bool) : List BackendCall :=
  [.can_flush, .is_rotational, .thread_model]
    ++ (if multi_conn then [.can_multi_conn] else [])
    ++ [.can_extents]

/-- The fixed order of the backend calls, the optional calls kept or left out:
`write_caps` keeps `can_zero, can_trim, can_fua`, `multi_conn` keeps `can_multi_conn`. -/
def call_order (readonly write_caps multi_conn : Bool) : List BackendCall :=
  [.open_ readonly, .prepare, .get_size, .can_write]
    ++ write_order write_caps ++ common_order multi_conn

/-- The bit `bit` is set in `flags`. -/
def has_flag (flags bit : Nat) : Bool := flags &&& bit != 0

/-- A freshly created connection: every feature boolean false; whether structured
replies were negotiated is the client's doing. -/
def Connection.fresh (structured_replies : Bool) : Connection :=
  { readonly := false, can_zero := false, can_trim := false, can_fua := false,
    can_flush := false, is_rotational := false, can_multi_conn := false,
    can_extents := false, structured_replies := structured_replies }

/-- No feature boolean of `c1` is true and cleared in `c2`, and the structured-replies
flag is the same: `c2` is `c1` with some feature booleans set. -/
def Connection.le (c1 c2 : Connection) : Prop :=
  (c1.readonly = true → c2.readonly = true) ∧
  (c1.can_zero = true → c2.can_zero = true) ∧
  (c1.can_trim = true → c2.can_trim = true) ∧
  (c1.can_fua = true → c2.can_fua = true) ∧
  (c1.can_flush = true → c2.can_flush = true) ∧
  (c1.is_rotational = true → c2.is_rotational = true) ∧
  (c1.can_multi_conn = true → c2.can_multi_conn = true) ∧
  (c1.can_extents = true → c2.can_extents = true) ∧
  c1.structured_replies = c2.structured_replies

/-- Whether the connection is read-only once `can_write` has been answered: the global
read-only policy, a backend that cannot write, or a connection read-only on entry. -/
def export_readonly (b : Backend) (ro : Bool) (conn : Connection) : Bool :=
  ro || b.can_write == 0 || conn.readonly

/-- The export flags assembled from the nine decisions, in the order the routine takes
them. -/
def flag_mask (read_only zero trim fua flush rot multi_conn df : Bool) : Nat :=
  NBD_FLAG_HAS_FLAGS ||| (if read_only then NBD_FLAG_READ_ONLY else 0)
    ||| (if zero then NBD_FLAG_SEND_WRITE_ZEROES else 0)
    ||| (if trim then NBD_FLAG_SEND_TRIM else 0)
    ||| (if fua then NBD_FLAG_SEND_FUA else 0)
    ||| (if flush then NBD_FLAG_SEND_FLUSH else 0)
    ||| (if rot then NBD_FLAG_ROTATIONAL else 0)
    ||| (if multi_conn then NBD_FLAG_CAN_MULTI_CONN else 0)
    ||| (if df then NBD_FLAG_SEND_DF else 0)

/-- Closed form of the flags a successful `protocol_common_open` publishes. -/
def open_flags (b : Backend) (ro : Bool) (conn : Connection) : Nat :=
  flag_mask (ro || b.can_write == 0)
    (!export_readonly b ro conn && b.can_zero != 0)
    (!export_readonly b ro conn && b.can_trim != 0)
    (!export_readonly b ro conn && b.can_fua != 0)
    (b.can_flush != 0) (b.is_rotational != 0)
    (decide (b.thread_model > NBDKIT_THREAD_MODEL_SERIALIZE_CONNECTIONS)
      && b.can_multi_conn != 0)
    conn.structured_replies

/-- Closed form of the connection a successful `protocol_common_open` leaves. -/
def open_conn (b : Backend) (ro : Bool) (conn : Connection) : Connection :=
  { readonly := export_readonly b ro conn
    can_zero := conn.can_zero || (!export_readonly b ro conn && b.can_zero != 0)
    can_trim := conn.can_trim || (!export_readonly b ro conn && b.can_trim != 0)
    can_fua := conn.can_fua || (!export_readonly b ro conn && b.can_fua != 0)
    can_flush := conn.can_flush || b.can_flush != 0
    is_rotational := conn.is_rotational || b.is_rotational != 0
    can_multi_conn := conn.can_multi_conn ||
      (decide (b.thread_model > NBDKIT_THREAD_MODEL_SERIALIZE_CONNECTIONS)
        && b.can_multi_conn != 0)
    can_extents := conn.can_extents || b.can_extents != 0
    structured_replies := conn.structured_replies }

/-- A call stops the routine when it reports an error, or when it is the `get_size`
call and the size it returns is negative (invalid). -/
def Backend.stops (b : Backend) (c : BackendCall) : Bool :=
  b.reports_error c || (c == .get_size && decide (b.get_size < 0))

/-- The prefix of a list up to and including its first element satisfying `p` (the whole
list when there is none). -/
def take_through {α : Type} (p : α → Bool) : List α → List α
  | [] => []
  | x :: xs => if p x then [x] else x :: take_through p xs

/-- The calls `protocol_common_open` makes when none stops it: the fixed order with
`can_zero, can_trim, can_fua` left out for a read-only export and `can_multi_conn` left
out under the most restrictive thread model. -/
def queried (b : Backend) (ro : Bool) (conn : Connection) : List BackendCall :=
  call_order ro (!export_readonly b ro conn)
    (decide (b.thread_model > NBDKIT_THREAD_MODEL_SERIALIZE_CONNECTIONS))

/-- A backend every call of which succeeds: 1 MiB export, writable, every capability
supported, parallel thread model. -/
def sampleBackend : Backend :=
  { open_ := fun _ => 0, prepare := 0, get_size := 1048576, can_write := 1, can_zero := 1,
    can_trim := 1, can_fua := 1, can_flush := 1, is_rotational := 1, thread_model := 3,
    can_multi_conn := 1, can_extents := 1 }

end Handshake

/-! # Theorems -/

namespace Checkwrite

/-! ## Traces of the checkwrite filter -/

theorem readsOnly_refl (tr : List Call) : ReadsOnly tr tr :=
  ⟨[], by simp, by simp⟩

theorem readsOnly_trans {a b c : List Call} (h1 : ReadsOnly a b) (h2 : ReadsOnly b c) :
    ReadsOnly a c := by
  obtain ⟨n1, rfl, hn1⟩ := h1
  obtain ⟨n2, rfl, hn2⟩ := h2
  refine ⟨n1 ++ n2, by simp, ?_⟩
  intro x hx
  rcases List.mem_append.mp hx with h | h
  · exact hn1 x h
  · exact hn2 x h

theorem readsOnly_snoc (tr : List Call) (c : Call) (h : Call.is_read c = true) :
    ReadsOnly tr (tr ++ [c]) :=
  ⟨[c], rfl, by simpa using h⟩

theorem read_loop_readsOnly (env : Env) (fuel : Nat) :
    ∀ neo count offset err tr,
      ReadsOnly tr (read_loop env fuel neo count offset err tr).trace := by
  induction fuel with
  | zero =>
    intro neo count offset err tr
    unfold read_loop
    split <;> exact readsOnly_refl tr
  | succ n ih =>
    intro neo count offset err tr
    unfold read_loop
    split
    · exact readsOnly_refl tr
    · simp only
      split
      · exact readsOnly_refl tr
      · split
        · exact readsOnly_snoc tr _ (by rfl)
        · split
          · exact readsOnly_snoc tr _ (by rfl)
          · exact readsOnly_trans (readsOnly_snoc tr _ (by rfl)) (ih _ _ _ _ _)

theorem extent_loop_readsOnly (env : Env) (fuel : Nat) (es : List Extent) :
    ∀ count offset err tr,
      ReadsOnly tr (extent_loop env fuel es count offset err tr).trace := by
  induction es with
  | nil =>
    intro count offset err tr
    exact readsOnly_refl tr
  | cons e es ih =>
    intro count offset err tr
    unfold extent_loop
    split
    · exact readsOnly_refl tr
    · split
      · exact ih _ _ _ _
      · split
        · exact readsOnly_refl tr
        · simp only
          split
          · exact ih _ _ _ _
          · have h := read_loop_readsOnly env fuel (add64 e.offset e.length) count offset err tr
            split
            · rename_i o heq
              rw [heq] at h
              exact h
            · rename_i c2 o2 tr2 heq
              rw [heq] at h
              exact readsOnly_trans h (ih _ _ _ _)

theorem extents_path_readsOnly (env : Env) (fuel : Nat) :
    ∀ count offset err tr,
      ReadsOnly tr (extents_path env fuel count offset err tr).trace := by
  induction fuel with
  | zero =>
    intro count offset err tr
    unfold extents_path
    split <;> exact readsOnly_refl tr
  | succ n ih =>
    intro count offset err tr
    unfold extents_path
    split
    · exact readsOnly_refl tr
    · simp only
      split
      · exact readsOnly_refl tr
      · split
        · exact readsOnly_snoc tr _ (by rfl)
        · rename_i exts _
          have h := extent_loop_readsOnly env n exts count offset err
            (tr ++ [Call.extents count offset 0])
          split
          · rename_i o heq
            rw [heq] at h
            exact readsOnly_trans (readsOnly_snoc tr _ (by rfl)) h
          · rename_i c2 o2 tr2 heq
            rw [heq] at h
            exact readsOnly_trans (readsOnly_trans (readsOnly_snoc tr _ (by rfl)) h) (ih _ _ _ _)

theorem slow_path_readsOnly (env : Env) (fuel : Nat) :
    ∀ count offset err tr,
      ReadsOnly tr (slow_path env fuel count offset err tr).trace := by
  induction fuel with
  | zero =>
    intro count offset err tr
    unfold slow_path
    split <;> exact readsOnly_refl tr
  | succ n ih =>
    intro count offset err tr
    unfold slow_path
    split
    · exact readsOnly_refl tr
    · simp only
      split
      · exact readsOnly_snoc tr _ (by rfl)
      · split
        · exact readsOnly_snoc tr _ (by rfl)
        · exact readsOnly_trans (readsOnly_snoc tr _ (by rfl)) (ih _ _ _ _)

theorem checkwrite_trim_zero_readsOnly (env : Env) (fuel count offset flags : Nat)
    (err : Int) (tr : List Call) :
    ReadsOnly tr (checkwrite_trim_zero env fuel count offset flags err tr).trace := by
  unfold checkwrite_trim_zero
  split
  · exact readsOnly_trans (readsOnly_snoc tr _ (by rfl)) (extents_path_readsOnly env fuel _ _ _ _)
  · split
    · exact readsOnly_snoc tr _ (by rfl)
    · exact readsOnly_trans (readsOnly_snoc tr _ (by rfl)) (slow_path_readsOnly env fuel _ _ _ _)

theorem checkwrite_pwrite_readsOnly (env : Env) (buf : List Nat) (count offset flags : Nat)
    (err : Int) (tr : List Call) :
    ReadsOnly tr (checkwrite_pwrite env buf count offset flags err tr).trace := by
  unfold checkwrite_pwrite
  split
  · exact readsOnly_refl tr
  · split
    · exact readsOnly_snoc tr _ (by rfl)
    · split
      · exact readsOnly_snoc tr _ (by rfl)
      · exact readsOnly_snoc tr _ (by rfl)

@[simp] theorem sampleEnv_pread (content : Nat → Nat) (ce : Int) (exts : List Extent)
    (h : List Call) (count offset flags : Nat) :
    (sampleEnv content ce exts).pread h count offset flags
      = .ok ((List.range count).map (fun i => content (offset + i))) := rfl

@[simp] theorem sampleEnv_can_extents (content : Nat → Nat) (ce : Int) (exts : List Extent)
    (h : List Call) : (sampleEnv content ce exts).can_extents h = ce := rfl

@[simp] theorem sampleEnv_extents (content : Nat → Nat) (ce : Int) (exts : List Extent)
    (h : List Call) (count offset flags : Nat) :
    (sampleEnv content ce exts).extents h count offset flags = .ok exts := rfl

@[simp] theorem sampleEnv_malloc (content : Nat → Nat) (ce : Int) (exts : List Extent)
    (h : List Call) (n : Nat) : (sampleEnv content ce exts).malloc h n = none := rfl

@[simp] theorem sampleEnv_extents_new (content : Nat → Nat) (ce : Int) (exts : List Extent)
    (h : List Call) (a b : Nat) : (sampleEnv content ce exts).extents_new h a b = true := rfl

theorem is_zero_zero (buf : List Nat) : is_zero buf 0 = true := by
  simp [is_zero]

/-- Once the offset has reached the end of an extent not flagged ZERO while bytes remain
to be checked, the read loop computes a chunk length of zero and repeats the same
zero-length read for as long as the backend answers it: it never leaves. -/
theorem read_loop_spin (env : Env) (neo count offset : Nat) (err : Int)
    (hm : ∀ tr, env.malloc tr 0 = none)
    (hp : ∀ tr, ∃ buf, env.pread tr 0 offset 0 = .ok buf)
    (hc : count ≠ 0) (hc32 : count < U32) (ho64 : offset < U64)
    (hend : sub64 neo offset = 0) :
    ∀ fuel tr, ∃ tr2,
      read_loop env fuel neo count offset err tr
        = Loop.ret { ret := none, err := err, trace := tr2 } := by
  have hlen : MIN3 MAX_REQUEST_SIZE count (sub64 neo offset) = 0 := by
    rw [hend]
    unfold MIN3 MIN MAX_REQUEST_SIZE
    split_ifs <;> omega
  have hcnt : sub32 count 0 = count := by
    unfold sub32 U32 at *
    omega
  have hoff : add64 offset 0 = offset := by
    unfold add64 U64 at *
    omega
  intro fuel
  induction fuel with
  | zero =>
    intro tr
    refine ⟨tr, ?_⟩
    unfold read_loop
    simp [hc]
  | succ n ih =>
    intro tr
    obtain ⟨buf, hbuf⟩ := hp tr
    obtain ⟨tr2, h2⟩ := ih (tr ++ [Call.pread 0 offset 0])
    refine ⟨tr2, ?_⟩
    unfold read_loop
    simp only [hc, if_false, hlen, hm, hbuf, is_zero_zero, hcnt, hoff, h2]
    simp

/-! ## Claims about the checkwrite filter -/

/-- C1: when the scratch buffer is allocated and the wrapped backend's pread of
`[offset, offset+count)` succeeds with bytes `d`, `checkwrite_pwrite` on a caller buffer
`buf` of `count` bytes returns 0 if `buf` equals `d`, and returns -1 with `*err = EIO` if
`buf` differs from `d` in at least one byte. -/
theorem checkwrite_pwrite_compare (env : Env) (buf d : List Nat)
    (count offset flags : Nat) (err : Int) (tr : List Call)
    (hbuf : buf.length = count) (hd : d.length = count)
    (halloc : env.malloc tr count = none)
    (hread : env.pread tr count offset 0 = .ok d) :
    (buf = d → (checkwrite_pwrite env buf count offset flags err tr).ret = some 0) ∧
    ((∃ i, i < count ∧ buf[i]? ≠ d[i]?) →
      (checkwrite_pwrite env buf count offset flags err tr).ret = some (-1) ∧
      (checkwrite_pwrite env buf count offset flags err tr).err = EIO) := by
  have hb : buf.take count = buf := by rw [← hbuf]; exact List.take_length _
  have hdd : d.take count = d := by rw [← hd]; exact List.take_length _
  constructor
  · intro h
    unfold checkwrite_pwrite
    simp [halloc, hread, memcmp_ne, hb, hdd, h]
  · rintro ⟨i, _, hi⟩
    have hne : buf ≠ d := by
      intro h
      exact hi (by rw [h])
    unfold checkwrite_pwrite
    simp [halloc, hread, memcmp_ne, hb, hdd, hne, data_does_not_match]

/-- Witness for C1: a two-byte write of the bytes the backend holds succeeds. -/
theorem checkwrite_pwrite_compare_witness :
    (checkwrite_pwrite (sampleEnv (fun i => i + 1) 0 []) [1, 2] 2 0 0 7 []).ret = some 0 :=
  (checkwrite_pwrite_compare (sampleEnv (fun i => i + 1) 0 []) [1, 2] [1, 2] 2 0 0 7 []
    rfl rfl rfl rfl).1 rfl

/-- C2 (the code departs from the claim): the backend reads all zero over `[0, 8)` and
reports the adjoining extents `[0, 4)` not flagged ZERO and `[4, 8)` flagged ZERO.
`checkwrite_trim_zero` never returns on the extents path: after the read of `[0, 4)` it
repeats a zero-length read at offset 4 whatever the fuel. -/
theorem checkwrite_trim_zero_mixed_extents_spins (fuel : Nat) :
    (checkwrite_trim_zero (sampleEnv (fun _ => 0) 1 [⟨0, 4, 0⟩, ⟨4, 4, NBDKIT_EXTENT_ZERO⟩])
      fuel 8 0 0 0 []).ret = none := by
  rcases fuel with _ | _ | n
  · simp [checkwrite_trim_zero, extents_path]
  · simp [checkwrite_trim_zero, extents_path, extent_loop, read_loop, add64, U64]
  · obtain ⟨tr2, h2⟩ := read_loop_spin
      (sampleEnv (fun _ => 0) 1 [⟨0, 4, 0⟩, ⟨4, 4, NBDKIT_EXTENT_ZERO⟩]) 4 4 4 0
      (fun _ => rfl) (fun _ => ⟨_, rfl⟩) (by decide) (by decide) (by decide) (by decide)
      n [Call.can_extents, Call.extents 8 0 0, Call.pread 4 0 0]
    have h4 : read_loop (sampleEnv (fun _ => 0) 1 [⟨0, 4, 0⟩, ⟨4, 4, NBDKIT_EXTENT_ZERO⟩])
        (n + 1) 4 8 0 0 [Call.can_extents, Call.extents 8 0 0]
        = Loop.ret { ret := none, err := 0, trace := tr2 } := by
      rw [← h2, read_loop]
      simp [MIN3, MIN, MAX_REQUEST_SIZE, sub64, U64, sub32, U32, add64]
      intro hz
      exact absurd hz (by decide)
    simp [checkwrite_trim_zero, extents_path, extent_loop, add64, U64, h4]

/-- C3 (the code departs from the claim): the backend holds exactly one non-zero byte in
`[0, 8)`, at offset 6, and reports the adjoining extents `[0, 4)` and `[4, 8)`, neither
flagged ZERO.  On the extents path `checkwrite_trim_zero` never reports the mismatch:
after the read of `[0, 4)` it repeats a zero-length read at offset 4 whatever the fuel. -/
theorem checkwrite_trim_zero_nonzero_byte_spins (fuel : Nat) :
    (checkwrite_trim_zero (sampleEnv (fun i => if i = 6 then 1 else 0) 1 [⟨0, 4, 0⟩, ⟨4, 4, 0⟩])
      fuel 8 0 0 0 []).ret = none := by
  rcases fuel with _ | _ | n
  · simp [checkwrite_trim_zero, extents_path]
  · simp [checkwrite_trim_zero, extents_path, extent_loop, read_loop, add64, U64]
  · obtain ⟨tr2, h2⟩ := read_loop_spin
      (sampleEnv (fun i => if i = 6 then 1 else 0) 1 [⟨0, 4, 0⟩, ⟨4, 4, 0⟩]) 4 4 4 0
      (fun _ => rfl) (fun _ => ⟨_, rfl⟩) (by decide) (by decide) (by decide) (by decide)
      n [Call.can_extents, Call.extents 8 0 0, Call.pread 4 0 0]
    have h4 : read_loop (sampleEnv (fun i => if i = 6 then 1 else 0) 1 [⟨0, 4, 0⟩, ⟨4, 4, 0⟩])
        (n + 1) 4 8 0 0 [Call.can_extents, Call.extents 8 0 0]
        = Loop.ret { ret := none, err := 0, trace := tr2 } := by
      rw [← h2, read_loop]
      simp [MIN3, MIN, MAX_REQUEST_SIZE, sub64, U64, sub32, U32, add64]
      intro hz
      exact absurd hz (by decide)
    simp [checkwrite_trim_zero, extents_path, extent_loop, add64, U64, h4]

/-- C4: whatever the request (pwrite, flush, trim or zero), its arguments and its result,
the calls the filter issues on the wrapped backend are only pread, can_extents and extents
calls, never pwrite, trim, zero or flush; so for a backend whose read calls leave its
stored bytes alone, the stored bytes after the request are those before it. -/
theorem filter_never_writes {σ β : Type} (env : Env) (fuel : Nat) (r : Request)
    (err : Int) (tr : List Call) (step : σ → Call → σ) (stored : σ → β) (s : σ)
    (hread : ∀ s c, Call.is_read c = true → stored (step s c) = stored s) :
    ∃ new, (filter env fuel r err tr).trace = tr ++ new ∧
      (∀ c ∈ new, (∃ n o f, c = Call.pread n o f) ∨ c = Call.can_extents ∨
        (∃ n o f, c = Call.extents n o f)) ∧
      stored (new.foldl step s) = stored s := by
  have h : ReadsOnly tr (filter env fuel r err tr).trace := by
    cases r with
    | pwrite buf count offset flags =>
      exact checkwrite_pwrite_readsOnly env buf count offset flags err tr
    | flush flags => exact readsOnly_refl tr
    | trim count offset flags =>
      exact checkwrite_trim_zero_readsOnly env fuel count offset flags err tr
    | zero count offset flags =>
      exact checkwrite_trim_zero_readsOnly env fuel count offset flags err tr
  obtain ⟨new, hnew, hall⟩ := h
  refine ⟨new, hnew, ?_, ?_⟩
  · intro c hc
    have := hall c hc
    cases c <;> simp_all [Call.is_read]
  · clear hnew
    induction new generalizing s with
    | nil => rfl
    | cons c cs ih =>
      simp only [List.foldl_cons]
      rw [ih (step s c) (fun x hx => hall x (List.mem_cons_of_mem _ hx))]
      exact hread s c (hall c (List.mem_cons_self _ _))

/-- Witness for C4: a mismatching one-byte write against a backend that stores `[7, 8]`. -/
theorem filter_never_writes_witness :
    ∃ new, (filter (sampleEnv (fun i => i + 7) 0 []) 1 (Request.pwrite [9] 1 0 0) 0 []).trace
        = [] ++ new ∧
      (∀ c ∈ new, (∃ n o f, c = Call.pread n o f) ∨ c = Call.can_extents ∨
        (∃ n o f, c = Call.extents n o f)) ∧
      id (new.foldl sampleStep [7, 8]) = id [7, 8] :=
  filter_never_writes (sampleEnv (fun i => i + 7) 0 []) 1 (Request.pwrite [9] 1 0 0) 0 []
    sampleStep id [7, 8] (fun s c h => by cases c <;> simp_all [Call.is_read, sampleStep])

end Checkwrite

namespace Handshake

/-! ## Projections of the running state of `protocol_common_open` -/

@[simp] theorem call_calls (s : OpenState) (c : BackendCall) :
    (s.call c).calls = s.calls ++ [c] := rfl

@[simp] theorem call_conn (s : OpenState) (c : BackendCall) : (s.call c).conn = s.conn := rfl

@[simp] theorem call_eflags (s : OpenState) (c : BackendCall) :
    (s.call c).eflags = s.eflags := rfl

@[simp] theorem call_reports (s : OpenState) (c : BackendCall) :
    (s.call c).reports = s.reports := rfl

@[simp] theorem grant_calls (s : OpenState) (c : Bool) (flag : Nat)
    (set : Connection → Connection) : (s.grant c flag set).calls = s.calls := by
  cases c <;> rfl

@[simp] theorem grant_reports (s : OpenState) (c : Bool) (flag : Nat)
    (set : Connection → Connection) : (s.grant c flag set).reports = s.reports := by
  cases c <;> rfl

@[simp] theorem grant_eflags (s : OpenState) (c : Bool) (flag : Nat)
    (set : Connection → Connection) :
    (s.grant c flag set).eflags = s.eflags ||| (if c then flag else 0) := by
  cases c <;> simp [OpenState.grant]

theorem grant_conn (s : OpenState) (c : Bool) (flag : Nat)
    (set : Connection → Connection) :
    (s.grant c flag set).conn = if c then set s.conn else s.conn := by
  cases c <;> rfl

@[simp] theorem fail_ret (s : OpenState) (e f : Nat) : (s.fail e f).ret = -1 := rfl

@[simp] theorem fail_conn (s : OpenState) (e f : Nat) : (s.fail e f).conn = s.conn := rfl

@[simp] theorem fail_exportsize (s : OpenState) (e f : Nat) : (s.fail e f).exportsize = e := rfl

@[simp] theorem fail_flags (s : OpenState) (e f : Nat) : (s.fail e f).flags = f := rfl

@[simp] theorem fail_calls (s : OpenState) (e f : Nat) : (s.fail e f).calls = s.calls := rfl

@[simp] theorem fail_reports (s : OpenState) (e f : Nat) :
    (s.fail e f).reports = s.reports := rfl


/-! ## The connection's booleans are only ever set -/

theorem conn_le_refl (c : Connection) : Connection.le c c := by
  simp [Connection.le]

theorem conn_le_trans {a b c : Connection} (h1 : Connection.le a b) (h2 : Connection.le b c) :
    Connection.le a c := by
  unfold Connection.le at *
  obtain ⟨a1, a2, a3, a4, a5, a6, a7, a8, a9⟩ := h1
  obtain ⟨b1, b2, b3, b4, b5, b6, b7, b8, b9⟩ := h2
  exact ⟨fun h => b1 (a1 h), fun h => b2 (a2 h), fun h => b3 (a3 h), fun h => b4 (a4 h),
    fun h => b5 (a5 h), fun h => b6 (a6 h), fun h => b7 (a7 h), fun h => b8 (a8 h),
    a9.trans b9⟩

theorem conn_le_grant (s : OpenState) (c : Bool) (flag : Nat) (set : Connection → Connection)
    (hset : Connection.le s.conn (set s.conn)) :
    Connection.le s.conn (s.grant c flag set).conn := by
  cases c
  · exact conn_le_refl _
  · exact hset

theorem write_caps_le (b : Backend) (s t : OpenState)
    (h : write_caps b s = .ok t ∨ write_caps b s = .error t) :
    Connection.le s.conn t.conn := by
  unfold write_caps at h
  cases hr : s.conn.readonly
  · simp only [hr, Bool.not_false, if_true] at h
    have g1 := conn_le_grant (s.call .can_zero) (b.can_zero != 0) NBD_FLAG_SEND_WRITE_ZEROES
      (fun c => { c with can_zero := true }) (by simp [Connection.le])
    have g2 := conn_le_grant
      (((s.call .can_zero).grant (b.can_zero != 0) NBD_FLAG_SEND_WRITE_ZEROES
        (fun c => { c with can_zero := true })).call .can_trim)
      (b.can_trim != 0) NBD_FLAG_SEND_TRIM
      (fun c => { c with can_trim := true }) (by simp [Connection.le])
    have g3 := conn_le_grant
      (((((s.call .can_zero).grant (b.can_zero != 0) NBD_FLAG_SEND_WRITE_ZEROES
        (fun c => { c with can_zero := true })).call .can_trim).grant
        (b.can_trim != 0) NBD_FLAG_SEND_TRIM (fun c => { c with can_trim := true })).call
        .can_fua)
      (b.can_fua != 0) NBD_FLAG_SEND_FUA
      (fun c => { c with can_fua := true }) (by simp [Connection.le])
    simp only [call_conn] at g1 g2 g3
    by_cases h5 : b.can_zero = -1
    · simp [h5] at h
      subst h
      exact conn_le_refl _
    by_cases h6 : b.can_trim = -1
    · simp [h5, h6] at h
      subst h
      exact g1
    by_cases h7 : b.can_fua = -1
    · simp [h5, h6, h7] at h
      subst h
      exact conn_le_trans g1 g2
    · simp [h5, h6, h7] at h
      subst h
      exact conn_le_trans (conn_le_trans g1 g2) g3
  · simp [hr] at h
    subst h
    exact conn_le_refl _

theorem multi_conn_caps_le (b : Backend) (s t : OpenState)
    (h : multi_conn_caps b s = .ok t ∨ multi_conn_caps b s = .error t) :
    Connection.le s.conn t.conn := by
  unfold multi_conn_caps at h
  by_cases htm : b.thread_model > NBDKIT_THREAD_MODEL_SERIALIZE_CONNECTIONS
  · by_cases hmc : b.can_multi_conn = -1
    · simp [htm, hmc] at h
      subst h
      exact conn_le_refl _
    · simp [htm, hmc] at h
      subst h
      exact conn_le_grant ((s.call .thread_model).call .can_multi_conn) _ _ _
        (by simp [Connection.le])
  · simp [htm] at h
    subst h
    exact conn_le_refl _

theorem common_caps_frame (b : Backend) (size : Int) (e f : Nat) (s : OpenState) :
    Connection.le s.conn (common_caps b size e f s).conn ∧
    ((common_caps b size e f s).ret = 0 ∨
      ((common_caps b size e f s).ret = -1 ∧ (common_caps b size e f s).exportsize = e ∧
        (common_caps b size e f s).flags = f)) := by
  have g1 := conn_le_grant (s.call .can_flush) (b.can_flush != 0) NBD_FLAG_SEND_FLUSH
    (fun c => { c with can_flush := true }) (by simp [Connection.le])
  have g2 := conn_le_grant
    (((s.call .can_flush).grant (b.can_flush != 0) NBD_FLAG_SEND_FLUSH
      (fun c => { c with can_flush := true })).call .is_rotational)
    (b.is_rotational != 0) NBD_FLAG_ROTATIONAL
    (fun c => { c with is_rotational := true }) (by simp [Connection.le])
  simp only [call_conn] at g1 g2
  have g12 := conn_le_trans g1 g2
  unfold common_caps
  by_cases h8 : b.can_flush = -1
  · simp [h8, conn_le_refl]
  by_cases h9 : b.is_rotational = -1
  · simp [h8, h9, g1]
  simp only [h8, h9, if_false]
  cases hm : multi_conn_caps b
      ((((s.call .can_flush).grant (b.can_flush != 0) NBD_FLAG_SEND_FLUSH
        (fun c => { c with can_flush := true })).call .is_rotational).grant
        (b.is_rotational != 0) NBD_FLAG_ROTATIONAL
        (fun c => { c with is_rotational := true })) with
  | error t =>
    have g3 := multi_conn_caps_le b _ t (Or.inr hm)
    exact ⟨conn_le_trans g12 g3, Or.inr ⟨rfl, rfl, rfl⟩⟩
  | ok t =>
    have g3 := conn_le_trans g12 (multi_conn_caps_le b _ t (Or.inl hm))
    by_cases h12 : b.can_extents = -1
    · simp [h12, g3]
    · simp only [h12, if_false, call_conn]
      refine ⟨?_, by simp⟩
      refine conn_le_trans g3 ?_
      by_cases hx : b.can_extents = 0 <;> cases hsr : t.conn.structured_replies <;>
        simp [hx, hsr, Connection.le]

/-- Whatever happens, `protocol_common_open` only ever sets feature booleans of the
connection, and a failing run leaves the two output locations as they were. -/
theorem open_frame (b : Backend) (ro : Bool) (conn : Connection) (e f : Nat) :
    Connection.le conn (protocol_common_open b ro conn e f).conn ∧
    ((protocol_common_open b ro conn e f).ret = 0 ∨
      ((protocol_common_open b ro conn e f).ret = -1 ∧
       (protocol_common_open b ro conn e f).exportsize = e ∧
       (protocol_common_open b ro conn e f).flags = f)) := by
  unfold protocol_common_open
  by_cases h1 : b.open_ ro = -1
  · simp [h1, conn_le_refl]
  by_cases h2 : b.prepare = -1
  · simp [h1, h2, conn_le_refl]
  by_cases h3 : b.get_size = -1
  · simp [h1, h2, h3, conn_le_refl]
  by_cases h3b : b.get_size < 0
  · simp [h1, h2, h3, h3b, conn_le_refl]
  by_cases h4 : b.can_write = -1
  · simp [h1, h2, h3, h3b, h4, conn_le_refl]
  simp only [h1, h2, h3, h3b, h4, if_false]
  have g0 := conn_le_grant
    (((((({ conn := conn, eflags := NBD_FLAG_HAS_FLAGS, calls := [], reports := [] } :
      OpenState).call (.open_ ro)).call .prepare).call .get_size).call .can_write))
    (ro || b.can_write == 0) NBD_FLAG_READ_ONLY
    (fun c => { c with readonly := true }) (by simp [Connection.le])
  simp only [call_conn] at g0
  cases hw : write_caps b
      (((((({ conn := conn, eflags := NBD_FLAG_HAS_FLAGS, calls := [], reports := [] } :
        OpenState).call (.open_ ro)).call .prepare).call .get_size).call .can_write).grant
        (ro || b.can_write == 0) NBD_FLAG_READ_ONLY
        (fun c => { c with readonly := true })) with
  | error t =>
    have g1 := write_caps_le b _ t (Or.inr hw)
    exact ⟨conn_le_trans g0 g1, Or.inr ⟨rfl, rfl, rfl⟩⟩
  | ok t =>
    have g1 := conn_le_trans g0 (write_caps_le b _ t (Or.inl hw))
    have g2 := common_caps_frame b b.get_size e f t
    exact ⟨conn_le_trans g1 g2.1, g2.2⟩

/-! ## The successful run in closed form -/

theorem write_caps_success (b : Backend) (s : OpenState)
    (h : s.conn.readonly = false → b.can_zero ≠ -1 ∧ b.can_trim ≠ -1 ∧ b.can_fua ≠ -1) :
    ∃ t, write_caps b s = .ok t ∧
      t.calls = s.calls ++
        (if s.conn.readonly then [] else [.can_zero, .can_trim, .can_fua]) ∧
      t.reports = s.reports ∧
      t.eflags = s.eflags
        ||| (if !s.conn.readonly && b.can_zero != 0 then NBD_FLAG_SEND_WRITE_ZEROES else 0)
        ||| (if !s.conn.readonly && b.can_trim != 0 then NBD_FLAG_SEND_TRIM else 0)
        ||| (if !s.conn.readonly && b.can_fua != 0 then NBD_FLAG_SEND_FUA else 0) ∧
      t.conn = { s.conn with
        can_zero := s.conn.can_zero || (!s.conn.readonly && b.can_zero != 0)
        can_trim := s.conn.can_trim || (!s.conn.readonly && b.can_trim != 0)
        can_fua := s.conn.can_fua || (!s.conn.readonly && b.can_fua != 0) } := by
  cases hr : s.conn.readonly
  · obtain ⟨h5, h6, h7⟩ := h hr
    refine ⟨_, by simp [write_caps, hr, h5, h6, h7]; rfl, ?_, ?_, ?_, ?_⟩
    · simp
    · simp
    · simp
    · generalize (b.can_zero != 0) = z
      generalize (b.can_trim != 0) = t
      generalize (b.can_fua != 0) = u
      rcases s with ⟨⟨r0, a1, a2, a3, a4, a5, a6, a7, a8⟩, ef, cl, rp⟩
      simp only at hr
      subst hr
      cases z <;> cases t <;> cases u <;> simp [grant_conn]
  · refine ⟨s, by simp [write_caps, hr], ?_, ?_, ?_, ?_⟩
    · simp
    · rfl
    · simp
    · rcases s with ⟨c, ef, cl, rp⟩
      cases c
      simp_all

theorem multi_conn_caps_success (b : Backend) (s : OpenState)
    (h : b.thread_model > NBDKIT_THREAD_MODEL_SERIALIZE_CONNECTIONS → b.can_multi_conn ≠ -1) :
    ∃ t, multi_conn_caps b s = .ok t ∧
      t.calls = s.calls ++ [.thread_model] ++
        (if decide (b.thread_model > NBDKIT_THREAD_MODEL_SERIALIZE_CONNECTIONS)
          then [.can_multi_conn] else []) ∧
      t.reports = s.reports ∧
      t.eflags = s.eflags
        ||| (if decide (b.thread_model > NBDKIT_THREAD_MODEL_SERIALIZE_CONNECTIONS)
              && b.can_multi_conn != 0 then NBD_FLAG_CAN_MULTI_CONN else 0) ∧
      t.conn = { s.conn with
        can_multi_conn := s.conn.can_multi_conn ||
          (decide (b.thread_model > NBDKIT_THREAD_MODEL_SERIALIZE_CONNECTIONS)
            && b.can_multi_conn != 0) } := by
  by_cases htm : b.thread_model > NBDKIT_THREAD_MODEL_SERIALIZE_CONNECTIONS
  · have hmc := h htm
    refine ⟨_, by simp [multi_conn_caps, htm, hmc]; rfl, ?_, ?_, ?_, ?_⟩
    · simp [htm]
    · simp
    · simp [htm]
    · generalize (b.can_multi_conn != 0) = z
      cases z <;> simp [grant_conn, htm]
  · refine ⟨s.call .thread_model, by simp [multi_conn_caps, htm], ?_, ?_, ?_, ?_⟩
    · simp [htm]
    · simp
    · simp [htm]
    · simp [htm]

theorem common_caps_success (b : Backend) (size : Int) (e f : Nat) (s : OpenState)
    (h8 : b.can_flush ≠ -1) (h9 : b.is_rotational ≠ -1)
    (h11 : b.thread_model > NBDKIT_THREAD_MODEL_SERIALIZE_CONNECTIONS → b.can_multi_conn ≠ -1)
    (h12 : b.can_extents ≠ -1) :
    (common_caps b size e f s).ret = 0 ∧
    (common_caps b size e f s).exportsize = size.toNat ∧
    (common_caps b size e f s).reports = s.reports ∧
    (common_caps b size e f s).calls = s.calls ++ [.can_flush, .is_rotational, .thread_model]
      ++ (if decide (b.thread_model > NBDKIT_THREAD_MODEL_SERIALIZE_CONNECTIONS)
          then [.can_multi_conn] else [])
      ++ [.can_extents] ∧
    (common_caps b size e f s).flags = s.eflags
      ||| (if b.can_flush != 0 then NBD_FLAG_SEND_FLUSH else 0)
      ||| (if b.is_rotational != 0 then NBD_FLAG_ROTATIONAL else 0)
      ||| (if decide (b.thread_model > NBDKIT_THREAD_MODEL_SERIALIZE_CONNECTIONS)
            && b.can_multi_conn != 0 then NBD_FLAG_CAN_MULTI_CONN else 0)
      ||| (if s.conn.structured_replies then NBD_FLAG_SEND_DF else 0) ∧
    (common_caps b size e f s).conn = { s.conn with
      can_flush := s.conn.can_flush || b.can_flush != 0
      is_rotational := s.conn.is_rotational || b.is_rotational != 0
      can_multi_conn := s.conn.can_multi_conn ||
        (decide (b.thread_model > NBDKIT_THREAD_MODEL_SERIALIZE_CONNECTIONS)
          && b.can_multi_conn != 0)
      can_extents := s.conn.can_extents || b.can_extents != 0 } := by
  obtain ⟨t, ht, hcalls, hreports, heflags, hconn⟩ := multi_conn_caps_success b
    ((((s.call .can_flush).grant (b.can_flush != 0) NBD_FLAG_SEND_FLUSH
      (fun c => { c with can_flush := true })).call .is_rotational).grant
      (b.is_rotational != 0) NBD_FLAG_ROTATIONAL
      (fun c => { c with is_rotational := true })) h11
  simp only [grant_calls, call_calls, grant_reports, call_reports, grant_eflags, call_eflags,
    grant_conn, call_conn] at hcalls hreports heflags hconn
  have hsr : t.conn.structured_replies = s.conn.structured_replies := by
    rw [hconn]
    generalize (b.can_flush != 0) = x
    generalize (b.is_rotational != 0) = y
    cases x <;> cases y <;> rfl
  have hx : (b.can_extents != 0) = true ↔ b.can_extents ≠ 0 := by simp
  unfold common_caps
  simp only [h8, h9, if_false, ht, h12, call_calls, call_conn, call_eflags, call_reports]
  refine ⟨trivial, trivial, ?_, ?_, ?_, ?_⟩
  · by_cases hx : b.can_extents = 0 <;> cases hs : t.conn.structured_replies <;>
      simp [hx, hs, hreports]
  · by_cases hx : b.can_extents = 0 <;> cases hs : t.conn.structured_replies <;>
      simp [hx, hs, hcalls]
  · rw [← hsr]
    by_cases hx : b.can_extents = 0 <;> cases hs : t.conn.structured_replies <;>
      simp [hx, hs, heflags]
  · rcases s with ⟨⟨r0, a1, a2, a3, a4, a5, a6, a7, a8⟩, ef, cl, rp⟩
    generalize (b.can_flush != 0) = x at hconn hsr ⊢
    generalize (b.is_rotational != 0) = y at hconn hsr ⊢
    by_cases hx : b.can_extents = 0 <;> cases hs : t.conn.structured_replies <;>
      cases x <;> cases y <;> simp_all

/-- When no queried call reports an error and the size is valid, `protocol_common_open`
succeeds, and what it leaves is given by the closed forms. -/
theorem open_success (b : Backend) (ro : Bool) (conn : Connection) (e f : Nat)
    (h1 : b.open_ ro ≠ -1) (h2 : b.prepare ≠ -1) (h3 : 0 ≤ b.get_size)
    (h4 : b.can_write ≠ -1)
    (h5 : export_readonly b ro conn = false →
      b.can_zero ≠ -1 ∧ b.can_trim ≠ -1 ∧ b.can_fua ≠ -1)
    (h8 : b.can_flush ≠ -1) (h9 : b.is_rotational ≠ -1)
    (h11 : b.thread_model > NBDKIT_THREAD_MODEL_SERIALIZE_CONNECTIONS → b.can_multi_conn ≠ -1)
    (h12 : b.can_extents ≠ -1) :
    (protocol_common_open b ro conn e f).ret = 0 ∧
    (protocol_common_open b ro conn e f).exportsize = b.get_size.toNat ∧
    (protocol_common_open b ro conn e f).reports = [] ∧
    (protocol_common_open b ro conn e f).calls =
      call_order ro (!export_readonly b ro conn)
        (decide (b.thread_model > NBDKIT_THREAD_MODEL_SERIALIZE_CONNECTIONS)) ∧
    (protocol_common_open b ro conn e f).flags = open_flags b ro conn ∧
    (protocol_common_open b ro conn e f).conn = open_conn b ro conn := by
  have h3a : b.get_size ≠ -1 := by omega
  have h3b : ¬ b.get_size < 0 := by omega
  have hro : ∀ s : OpenState, s.conn = conn →
      (s.grant (ro || b.can_write == 0) NBD_FLAG_READ_ONLY
        (fun c => { c with readonly := true })).conn
      = { conn with readonly := export_readonly b ro conn } := by
    intro s hs
    rw [grant_conn, hs]
    unfold export_readonly
    cases (ro || b.can_write == 0) <;> simp
  obtain ⟨t, ht, hcalls, hreports, heflags, hconn⟩ := write_caps_success b
    (((((({ conn := conn, eflags := NBD_FLAG_HAS_FLAGS, calls := [], reports := [] } :
      OpenState).call (.open_ ro)).call .prepare).call .get_size).call .can_write).grant
      (ro || b.can_write == 0) NBD_FLAG_READ_ONLY
      (fun c => { c with readonly := true }))
    (by rw [hro _ rfl]; exact h5)
  rw [hro _ rfl] at hcalls heflags hconn
  simp only [grant_calls, call_calls, grant_reports, call_reports, grant_eflags,
    call_eflags] at hcalls hreports heflags
  obtain ⟨c1, c2, c3, c4, c5, c6⟩ := common_caps_success b b.get_size e f t h8 h9 h11 h12
  unfold protocol_common_open
  simp only [h1, h2, h3a, h3b, h4, if_false, ht]
  refine ⟨c1, c2, ?_, ?_, ?_, ?_⟩
  · rw [c3, hreports]
  · rw [c4, hcalls]
    cases export_readonly b ro conn <;>
      cases decide (b.thread_model > NBDKIT_THREAD_MODEL_SERIALIZE_CONNECTIONS) <;>
      simp [call_order, write_order, common_order]
  · rw [c5, heflags, hconn]
    simp [open_flags, flag_mask]
  · rw [c6, hconn]
    simp [open_conn]

/-! ## The calls made, in closed form -/

theorem take_through_append {α : Type} (p : α → Bool) (l1 l2 : List α) :
    take_through p (l1 ++ l2)
      = if l1.any p then take_through p l1 else l1 ++ take_through p l2 := by
  induction l1 with
  | nil => simp
  | cons x xs ih =>
    cases hx : p x
    · simp [take_through, hx, ih]
      split <;> rfl
    · simp [take_through, hx]

theorem take_through_isPrefix {α : Type} (p : α → Bool) (l : List α) :
    take_through p l <+: l := by
  induction l with
  | nil => exact List.prefix_refl _
  | cons x xs ih =>
    unfold take_through
    split
    · exact ⟨xs, rfl⟩
    · obtain ⟨t, ht⟩ := ih
      exact ⟨t, by simp [ht]⟩

theorem take_through_last {α : Type} (p : α → Bool) (l : List α) (c : α)
    (hc : c ∈ take_through p l) (hp : p c = true) : (take_through p l).getLast? = some c := by
  induction l with
  | nil => simp [take_through] at hc
  | cons x xs ih =>
    unfold take_through at hc ⊢
    cases hx : p x
    · simp only [hx] at hc ⊢
      rcases List.mem_cons.mp hc with h | h
      · rw [h] at hp
        rw [hp] at hx
        cases hx
      · have hl := ih h
        obtain ⟨y, ys, hys⟩ := List.exists_cons_of_ne_nil (List.ne_nil_of_mem h)
        simp only [Bool.false_eq_true, if_false]
        rw [hys] at hl ⊢
        rw [List.getLast?_cons_cons]
        exact hl
    · simp only [hx, if_true] at hc ⊢
      simp at hc
      simp [hc]

theorem take_through_any {α : Type} (p : α → Bool) (l : List α) :
    (take_through p l).any p = l.any p := by
  induction l with
  | nil => rfl
  | cons x xs ih =>
    unfold take_through
    cases hx : p x <;> simp [hx, ih]

@[simp] theorem stops_open (b : Backend) (ro : Bool) :
    b.stops (.open_ ro) = (b.open_ ro == -1) := by
  simp [Backend.stops, Backend.reports_error, Backend.answer]

@[simp] theorem stops_prepare (b : Backend) : b.stops .prepare = (b.prepare == -1) := by
  simp [Backend.stops, Backend.reports_error, Backend.answer]

@[simp] theorem stops_get_size (b : Backend) :
    b.stops .get_size = (b.get_size == -1 || decide (b.get_size < 0)) := by
  simp [Backend.stops, Backend.reports_error, Backend.answer]

@[simp] theorem stops_can_write (b : Backend) : b.stops .can_write = (b.can_write == -1) := by
  simp [Backend.stops, Backend.reports_error, Backend.answer]

@[simp] theorem stops_can_zero (b : Backend) : b.stops .can_zero = (b.can_zero == -1) := by
  simp [Backend.stops, Backend.reports_error, Backend.answer]

@[simp] theorem stops_can_trim (b : Backend) : b.stops .can_trim = (b.can_trim == -1) := by
  simp [Backend.stops, Backend.reports_error, Backend.answer]

@[simp] theorem stops_can_fua (b : Backend) : b.stops .can_fua = (b.can_fua == -1) := by
  simp [Backend.stops, Backend.reports_error, Backend.answer]

@[simp] theorem stops_can_flush (b : Backend) : b.stops .can_flush = (b.can_flush == -1) := by
  simp [Backend.stops, Backend.reports_error, Backend.answer]

@[simp] theorem stops_is_rotational (b : Backend) :
    b.stops .is_rotational = (b.is_rotational == -1) := by
  simp [Backend.stops, Backend.reports_error, Backend.answer]

@[simp] theorem stops_thread_model (b : Backend) : b.stops .thread_model = false := by
  simp [Backend.stops, Backend.reports_error]

@[simp] theorem stops_can_multi_conn (b : Backend) :
    b.stops .can_multi_conn = (b.can_multi_conn == -1) := by
  simp [Backend.stops, Backend.reports_error, Backend.answer]

@[simp] theorem stops_can_extents (b : Backend) :
    b.stops .can_extents = (b.can_extents == -1) := by
  simp [Backend.stops, Backend.reports_error, Backend.answer]

theorem write_caps_calls (b : Backend) (s t : OpenState) :
    (write_caps b s = .ok t →
      t.calls = s.calls ++ write_order (!s.conn.readonly) ∧
      t.reports = s.reports ∧
      (write_order (!s.conn.readonly)).any b.stops = false) ∧
    (write_caps b s = .error t →
      t.calls = s.calls ++ take_through b.stops (write_order (!s.conn.readonly)) ∧
      t.reports = s.reports ∧
      (write_order (!s.conn.readonly)).any b.stops = true) := by
  cases hr : s.conn.readonly
  · by_cases h5 : b.can_zero = -1
    · constructor <;> intro h <;>
        simp [write_caps, hr, h5] at h <;> subst h <;>
        simp [take_through, write_order, h5]
    by_cases h6 : b.can_trim = -1
    · constructor <;> intro h <;>
        simp [write_caps, hr, h5, h6] at h <;> subst h <;>
        simp [take_through, write_order, h5, h6]
    by_cases h7 : b.can_fua = -1
    · constructor <;> intro h <;>
        simp [write_caps, hr, h5, h6, h7] at h <;> subst h <;>
        simp [take_through, write_order, h5, h6, h7]
    · constructor <;> intro h <;>
        simp [write_caps, hr, h5, h6, h7] at h <;> subst h <;>
        simp [take_through, write_order, h5, h6, h7]
  · constructor <;> intro h <;> simp [write_caps, hr] at h
    subst h
    simp [write_order]

theorem common_caps_calls (b : Backend) (size : Int) (e f : Nat) (s : OpenState) :
    (common_caps b size e f s).calls = s.calls ++ take_through b.stops
      (common_order (decide (b.thread_model > NBDKIT_THREAD_MODEL_SERIALIZE_CONNECTIONS))) ∧
    (common_caps b size e f s).reports = s.reports ∧
    (common_caps b size e f s).ret =
      if (common_order (decide (b.thread_model > NBDKIT_THREAD_MODEL_SERIALIZE_CONNECTIONS))).any
        b.stops then -1 else 0 := by
  by_cases h8 : b.can_flush = -1
  · simp [common_caps, h8, take_through, common_order]
  by_cases h9 : b.is_rotational = -1
  · simp [common_caps, h8, h9, take_through, common_order]
  by_cases htm : b.thread_model > NBDKIT_THREAD_MODEL_SERIALIZE_CONNECTIONS
  · by_cases h11 : b.can_multi_conn = -1
    · simp [common_caps, multi_conn_caps, h8, h9, htm, h11, take_through, common_order]
    by_cases h12 : b.can_extents = -1
    · simp [common_caps, multi_conn_caps, h8, h9, htm, h11, h12, take_through, common_order]
    · by_cases hx : b.can_extents = 0 <;>
        cases hs : s.conn.structured_replies <;>
        simp [common_caps, multi_conn_caps, h8, h9, htm, h11, h12, take_through,
          common_order, grant_conn, hx, hs, apply_ite Connection.structured_replies]
  · by_cases h12 : b.can_extents = -1
    · simp [common_caps, multi_conn_caps, h8, h9, htm, h12, take_through, common_order]
    · by_cases hx : b.can_extents = 0 <;>
        cases hs : s.conn.structured_replies <;>
        simp [common_caps, multi_conn_caps, h8, h9, htm, h12, take_through,
          common_order, grant_conn, hx, hs, apply_ite Connection.structured_replies]

/-- The calls `protocol_common_open` makes are the calls it would make undisturbed, cut
after the first one that stops it; it fails exactly when there is such a call; and the
invalid-size report is made exactly when `get_size` is reached and returns a negative
value other than -1. -/
theorem open_calls (b : Backend) (ro : Bool) (conn : Connection) (e f : Nat) :
    (protocol_common_open b ro conn e f).calls
      = take_through b.stops (queried b ro conn) ∧
    (protocol_common_open b ro conn e f).ret
      = (if (queried b ro conn).any b.stops then -1 else 0) ∧
    (protocol_common_open b ro conn e f).reports
      = (if b.open_ ro ≠ -1 ∧ b.prepare ≠ -1 ∧ b.get_size ≠ -1 ∧ b.get_size < 0
          then [Report.invalid_size b.get_size] else []) := by
  unfold queried call_order
  by_cases h1 : b.open_ ro = -1
  · simp [protocol_common_open, h1, take_through]
  by_cases h2 : b.prepare = -1
  · simp [protocol_common_open, h1, h2, take_through]
  by_cases h3 : b.get_size = -1
  · simp [protocol_common_open, h1, h2, h3, take_through]
  by_cases h3b : b.get_size < 0
  · simp [protocol_common_open, h1, h2, h3, h3b, take_through]
  by_cases h4 : b.can_write = -1
  · simp [protocol_common_open, h1, h2, h3, h3b, h4, take_through]
  have hro : ((((((({ conn := conn, eflags := NBD_FLAG_HAS_FLAGS, calls := [], reports := [] } :
      OpenState).call (.open_ ro)).call .prepare).call .get_size).call .can_write).grant
      (ro || b.can_write == 0) NBD_FLAG_READ_ONLY
      (fun c => { c with readonly := true })).conn.readonly)
      = export_readonly b ro conn := by
    rw [grant_conn]
    unfold export_readonly
    cases (ro || b.can_write == 0) <;> simp
  unfold protocol_common_open
  simp only [h1, h2, h3, h3b, h4, if_false]
  cases hw : write_caps b
      (((((({ conn := conn, eflags := NBD_FLAG_HAS_FLAGS, calls := [], reports := [] } :
        OpenState).call (.open_ ro)).call .prepare).call .get_size).call .can_write).grant
        (ro || b.can_write == 0) NBD_FLAG_READ_ONLY
        (fun c => { c with readonly := true })) with
  | error t =>
    obtain ⟨hc, hr, hany⟩ := (write_caps_calls b _ t).2 hw
    rw [hro] at hc hany
    simp only [fail_calls, fail_ret, fail_reports, hc, hr]
    simp [take_through, take_through_append, hany, h1, h2, h3, h3b, h4]
  | ok t =>
    obtain ⟨hc, hr, hany⟩ := (write_caps_calls b _ t).1 hw
    rw [hro] at hc hany
    obtain ⟨c1, c2, c3⟩ := common_caps_calls b b.get_size e f t
    simp only [c1, c2, c3, hc, hr]
    simp [take_through, take_through_append, hany, h1, h2, h3, h3b, h4]

/-! ## Bits of the assembled flags -/

theorem flag_mask_bits (a z t u fl r m d : Bool) :
    has_flag (flag_mask a z t u fl r m d) NBD_FLAG_HAS_FLAGS = true ∧
    has_flag (flag_mask a z t u fl r m d) NBD_FLAG_READ_ONLY = a ∧
    has_flag (flag_mask a z t u fl r m d) NBD_FLAG_SEND_WRITE_ZEROES = z ∧
    has_flag (flag_mask a z t u fl r m d) NBD_FLAG_SEND_TRIM = t ∧
    has_flag (flag_mask a z t u fl r m d) NBD_FLAG_SEND_FUA = u ∧
    has_flag (flag_mask a z t u fl r m d) NBD_FLAG_SEND_FLUSH = fl ∧
    has_flag (flag_mask a z t u fl r m d) NBD_FLAG_ROTATIONAL = r ∧
    has_flag (flag_mask a z t u fl r m d) NBD_FLAG_CAN_MULTI_CONN = m ∧
    has_flag (flag_mask a z t u fl r m d) NBD_FLAG_SEND_DF = d ∧
    flag_mask a z t u fl r m d < 512 := by
  cases a <;> cases z <;> cases t <;> cases u <;> cases fl <;> cases r <;> cases m <;>
    cases d <;> decide

/-- The routine succeeds exactly when no queried call reports an error and the size is
valid. -/
theorem open_ok_iff (b : Backend) (ro : Bool) (conn : Connection) (e f : Nat) :
    (protocol_common_open b ro conn e f).ret = 0 ↔
      (b.open_ ro ≠ -1 ∧ b.prepare ≠ -1 ∧ 0 ≤ b.get_size ∧ b.can_write ≠ -1 ∧
        (export_readonly b ro conn = false →
          b.can_zero ≠ -1 ∧ b.can_trim ≠ -1 ∧ b.can_fua ≠ -1) ∧
        b.can_flush ≠ -1 ∧ b.is_rotational ≠ -1 ∧
        (b.thread_model > NBDKIT_THREAD_MODEL_SERIALIZE_CONNECTIONS →
          b.can_multi_conn ≠ -1) ∧
        b.can_extents ≠ -1) := by
  constructor
  · intro h
    rw [(open_calls b ro conn e f).2.1] at h
    have hany : (queried b ro conn).any b.stops = false := by
      cases hq : (queried b ro conn).any b.stops
      · rfl
      · rw [hq] at h
        simp at h
    unfold queried call_order write_order common_order at hany
    cases her : export_readonly b ro conn <;>
      by_cases htm : b.thread_model > NBDKIT_THREAD_MODEL_SERIALIZE_CONNECTIONS <;>
      simp [her, htm] at hany ⊢ <;> omega
  · rintro ⟨h1, h2, h3, h4, h5, h8, h9, h11, h12⟩
    exact (open_success b ro conn e f h1 h2 h3 h4 h5 h8 h9 h11 h12).1

/-! ## Claims about `protocol_common_open` -/

/-- C5: when the global read-only policy is set or the backend's `can_write` reports
unsupported (0), `can_zero`, `can_trim` and `can_fua` are never invoked, whatever else
the chain does; and when moreover open, prepare and get_size succeed and no queried
predicate reports an error, `protocol_common_open` succeeds, the returned flags have the
READ_ONLY bit and none of the SEND_WRITE_ZEROES, SEND_TRIM, SEND_FUA bits, and
`conn.readonly` is true. -/
theorem open_readonly_export (b : Backend) (ro : Bool) (conn : Connection) (e f : Nat)
    (hw : b.can_write = 0 ∨ ro = true) :
    (BackendCall.can_zero ∉ (protocol_common_open b ro conn e f).calls ∧
      BackendCall.can_trim ∉ (protocol_common_open b ro conn e f).calls ∧
      BackendCall.can_fua ∉ (protocol_common_open b ro conn e f).calls) ∧
    (b.open_ ro ≠ -1 → b.prepare ≠ -1 → 0 ≤ b.get_size → b.can_write ≠ -1 →
      b.can_flush ≠ -1 → b.is_rotational ≠ -1 →
      (b.thread_model > NBDKIT_THREAD_MODEL_SERIALIZE_CONNECTIONS → b.can_multi_conn ≠ -1) →
      b.can_extents ≠ -1 →
      (protocol_common_open b ro conn e f).ret = 0 ∧
      has_flag (protocol_common_open b ro conn e f).flags NBD_FLAG_READ_ONLY = true ∧
      has_flag (protocol_common_open b ro conn e f).flags NBD_FLAG_SEND_WRITE_ZEROES = false ∧
      has_flag (protocol_common_open b ro conn e f).flags NBD_FLAG_SEND_TRIM = false ∧
      has_flag (protocol_common_open b ro conn e f).flags NBD_FLAG_SEND_FUA = false ∧
      (protocol_common_open b ro conn e f).conn.readonly = true) := by
  have hgrant : (ro || b.can_write == 0) = true := by
    rcases hw with h | h <;> simp [h]
  have her : export_readonly b ro conn = true := by
    unfold export_readonly
    rw [hgrant]
    rfl
  constructor
  · have hpre : (protocol_common_open b ro conn e f).calls <+: queried b ro conn := by
      rw [(open_calls b ro conn e f).1]
      exact take_through_isPrefix _ _
    have hq : BackendCall.can_zero ∉ queried b ro conn ∧
        BackendCall.can_trim ∉ queried b ro conn ∧
        BackendCall.can_fua ∉ queried b ro conn := by
      unfold queried call_order write_order common_order
      rw [her]
      cases decide (b.thread_model > NBDKIT_THREAD_MODEL_SERIALIZE_CONNECTIONS) <;> simp
    exact ⟨fun h => hq.1 (hpre.subset h), fun h => hq.2.1 (hpre.subset h),
      fun h => hq.2.2 (hpre.subset h)⟩
  · intro h1 h2 h3 h4 h8 h9 h11 h12
    obtain ⟨c1, _, _, _, c5, c6⟩ := open_success b ro conn e f h1 h2 h3 h4
      (fun h => by rw [her] at h; cases h) h8 h9 h11 h12
    rw [c5, c6]
    unfold open_flags open_conn
    rw [her, hgrant]
    simp only [Bool.not_true, Bool.false_and]
    have hb := flag_mask_bits true false false false (b.can_flush != 0)
      (b.is_rotational != 0)
      (decide (b.thread_model > NBDKIT_THREAD_MODEL_SERIALIZE_CONNECTIONS)
        && b.can_multi_conn != 0) conn.structured_replies
    exact ⟨c1, hb.2.1, hb.2.2.1, hb.2.2.2.1, hb.2.2.2.2.1, trivial⟩

/-- Witness for C5: the sample backend under the global read-only policy. -/
theorem open_readonly_export_witness :
    (BackendCall.can_zero ∉
        (protocol_common_open sampleBackend true (Connection.fresh false) 0 0).calls ∧
      BackendCall.can_trim ∉
        (protocol_common_open sampleBackend true (Connection.fresh false) 0 0).calls ∧
      BackendCall.can_fua ∉
        (protocol_common_open sampleBackend true (Connection.fresh false) 0 0).calls) ∧
    (protocol_common_open sampleBackend true (Connection.fresh false) 0 0).ret = 0 ∧
    has_flag (protocol_common_open sampleBackend true (Connection.fresh false) 0 0).flags
      NBD_FLAG_READ_ONLY = true :=
  have h := open_readonly_export sampleBackend true (Connection.fresh false) 0 0
    (Or.inr rfl)
  have h2 := h.2 (by decide) (by decide) (by decide) (by decide) (by decide) (by decide)
    (fun _ => by decide) (by decide)
  ⟨h.1, h2.1, h2.2.1⟩

/-- C6: when open and prepare succeed, the `get_size` result `s` is classified thus: a
negative `s` other than -1 fails with the invalid-size report; `s = -1` fails without
that report; in both cases the calls made are open, prepare, get_size only (no capability
predicate) and the exportsize and flags outputs keep their contents; and when `s >= 0`
and the routine succeeds, the exportsize output equals `s`. -/
theorem open_get_size_classes (b : Backend) (ro : Bool) (conn : Connection) (e f : Nat)
    (h1 : b.open_ ro ≠ -1) (h2 : b.prepare ≠ -1) :
    (b.get_size < 0 → b.get_size ≠ -1 →
      (protocol_common_open b ro conn e f).ret = -1 ∧
      (protocol_common_open b ro conn e f).reports = [Report.invalid_size b.get_size] ∧
      (protocol_common_open b ro conn e f).calls
        = [BackendCall.open_ ro, BackendCall.prepare, BackendCall.get_size] ∧
      (protocol_common_open b ro conn e f).exportsize = e ∧
      (protocol_common_open b ro conn e f).flags = f) ∧
    (b.get_size = -1 →
      (protocol_common_open b ro conn e f).ret = -1 ∧
      (protocol_common_open b ro conn e f).reports = [] ∧
      (protocol_common_open b ro conn e f).calls
        = [BackendCall.open_ ro, BackendCall.prepare, BackendCall.get_size] ∧
      (protocol_common_open b ro conn e f).exportsize = e ∧
      (protocol_common_open b ro conn e f).flags = f) ∧
    (0 ≤ b.get_size → (protocol_common_open b ro conn e f).ret = 0 →
      ((protocol_common_open b ro conn e f).exportsize : Int) = b.get_size) := by
  refine ⟨?_, ?_, ?_⟩
  · intro h3 h3a
    simp [protocol_common_open, h1, h2, h3, h3a]
  · intro h3
    simp [protocol_common_open, h1, h2, h3]
  · intro h3 hret
    obtain ⟨g1, g2, _, g4, g5, g8, g9, g11, g12⟩ := (open_ok_iff b ro conn e f).mp hret
    rw [(open_success b ro conn e f g1 g2 h3 g4 g5 g8 g9 g11 g12).2.1]
    exact Int.toNat_of_nonneg h3

/-- Witness for C6: a backend whose `get_size` returns -5. -/
theorem open_get_size_classes_witness :
    (protocol_common_open { sampleBackend with get_size := -5 } false
        (Connection.fresh false) 7 9).ret = -1 ∧
    (protocol_common_open { sampleBackend with get_size := -5 } false
        (Connection.fresh false) 7 9).reports = [Report.invalid_size (-5)] ∧
    (protocol_common_open { sampleBackend with get_size := -5 } false
        (Connection.fresh false) 7 9).calls
      = [BackendCall.open_ false, BackendCall.prepare, BackendCall.get_size] ∧
    (protocol_common_open { sampleBackend with get_size := -5 } false
        (Connection.fresh false) 7 9).exportsize = 7 ∧
    (protocol_common_open { sampleBackend with get_size := -5 } false
        (Connection.fresh false) 7 9).flags = 9 :=
  (open_get_size_classes { sampleBackend with get_size := -5 } false
    (Connection.fresh false) 7 9 (by decide) (by decide)).1 (by decide) (by decide)

/-- C7 as stated fails: with a parallel thread model (3, above SERIALIZE_CONNECTIONS)
and a backend whose `can_multi_conn` returns 0, the routine succeeds and the
CAN_MULTI_CONN bit is not set. -/
theorem multi_conn_not_only_thread_model :
    (protocol_common_open { sampleBackend with can_multi_conn := 0 } false
        (Connection.fresh false) 0 0).ret = 0 ∧
    ({ sampleBackend with can_multi_conn := 0 } : Backend).thread_model
      > NBDKIT_THREAD_MODEL_SERIALIZE_CONNECTIONS ∧
    has_flag (protocol_common_open { sampleBackend with can_multi_conn := 0 } false
        (Connection.fresh false) 0 0).flags NBD_FLAG_CAN_MULTI_CONN = false := by
  decide

/-- C7 amended: for every successful `protocol_common_open`, the CAN_MULTI_CONN bit is set
in the returned flags if and only if the thread model is above SERIALIZE_CONNECTIONS and
the backend's `can_multi_conn` returned non-zero. -/
theorem multi_conn_flag_iff (b : Backend) (ro : Bool) (conn : Connection) (e f : Nat)
    (hret : (protocol_common_open b ro conn e f).ret = 0) :
    has_flag (protocol_common_open b ro conn e f).flags NBD_FLAG_CAN_MULTI_CONN = true ↔
      (b.thread_model > NBDKIT_THREAD_MODEL_SERIALIZE_CONNECTIONS ∧ b.can_multi_conn ≠ 0) := by
  obtain ⟨g1, g2, g3, g4, g5, g8, g9, g11, g12⟩ := (open_ok_iff b ro conn e f).mp hret
  rw [(open_success b ro conn e f g1 g2 g3 g4 g5 g8 g9 g11 g12).2.2.2.2.1]
  unfold open_flags
  rw [(flag_mask_bits _ _ _ _ _ _ _ _).2.2.2.2.2.2.2.1]
  simp

/-- Witness for C7 amended: the sample backend, which allows parallel connections and
supports multi-conn. -/
theorem multi_conn_flag_iff_witness :
    has_flag (protocol_common_open sampleBackend false (Connection.fresh false) 0 0).flags
        NBD_FLAG_CAN_MULTI_CONN = true ↔
      (sampleBackend.thread_model > NBDKIT_THREAD_MODEL_SERIALIZE_CONNECTIONS ∧
        sampleBackend.can_multi_conn ≠ 0) :=
  multi_conn_flag_iff sampleBackend false (Connection.fresh false) 0 0 (by decide)

/-- C8: for a freshly created connection and a backend chain every queried call of
which succeeds, `protocol_common_open` returns success with exportsize equal to the
`get_size` result and flags made of exactly these bits: HAS_FLAGS always; READ_ONLY iff the
global read-only policy is set or `can_write` returned 0; SEND_WRITE_ZEROES, SEND_TRIM,
SEND_FUA iff the export is not read-only and `can_zero`, `can_trim`, `can_fua` returned
non-zero; SEND_FLUSH iff `can_flush` returned non-zero; ROTATIONAL iff `is_rotational`
returned non-zero; CAN_MULTI_CONN iff the thread model is above SERIALIZE_CONNECTIONS and
`can_multi_conn` returned non-zero, `can_multi_conn` being called only in that case;
SEND_DF iff the connection negotiated structured replies; and no bit beyond these nine
(the flags are below 2^9). -/
theorem open_flags_exact (b : Backend) (ro sr : Bool) (e f : Nat)
    (h1 : b.open_ ro ≠ -1) (h2 : b.prepare ≠ -1) (h3 : 0 ≤ b.get_size)
    (h4 : b.can_write ≠ -1)
    (h5 : ro = false → b.can_write ≠ 0 →
      b.can_zero ≠ -1 ∧ b.can_trim ≠ -1 ∧ b.can_fua ≠ -1)
    (h8 : b.can_flush ≠ -1) (h9 : b.is_rotational ≠ -1)
    (h11 : b.thread_model > NBDKIT_THREAD_MODEL_SERIALIZE_CONNECTIONS → b.can_multi_conn ≠ -1)
    (h12 : b.can_extents ≠ -1) :
    (protocol_common_open b ro (Connection.fresh sr) e f).ret = 0 ∧
    ((protocol_common_open b ro (Connection.fresh sr) e f).exportsize : Int) = b.get_size ∧
    has_flag (protocol_common_open b ro (Connection.fresh sr) e f).flags
      NBD_FLAG_HAS_FLAGS = true ∧
    (has_flag (protocol_common_open b ro (Connection.fresh sr) e f).flags
      NBD_FLAG_READ_ONLY = true ↔ (ro = true ∨ b.can_write = 0)) ∧
    (has_flag (protocol_common_open b ro (Connection.fresh sr) e f).flags
      NBD_FLAG_SEND_WRITE_ZEROES = true ↔
        (¬ (ro = true ∨ b.can_write = 0) ∧ b.can_zero ≠ 0)) ∧
    (has_flag (protocol_common_open b ro (Connection.fresh sr) e f).flags
      NBD_FLAG_SEND_TRIM = true ↔
        (¬ (ro = true ∨ b.can_write = 0) ∧ b.can_trim ≠ 0)) ∧
    (has_flag (protocol_common_open b ro (Connection.fresh sr) e f).flags
      NBD_FLAG_SEND_FUA = true ↔
        (¬ (ro = true ∨ b.can_write = 0) ∧ b.can_fua ≠ 0)) ∧
    (has_flag (protocol_common_open b ro (Connection.fresh sr) e f).flags
      NBD_FLAG_SEND_FLUSH = true ↔ b.can_flush ≠ 0) ∧
    (has_flag (protocol_common_open b ro (Connection.fresh sr) e f).flags
      NBD_FLAG_ROTATIONAL = true ↔ b.is_rotational ≠ 0) ∧
    (has_flag (protocol_common_open b ro (Connection.fresh sr) e f).flags
      NBD_FLAG_CAN_MULTI_CONN = true ↔
        (b.thread_model > NBDKIT_THREAD_MODEL_SERIALIZE_CONNECTIONS ∧
          b.can_multi_conn ≠ 0)) ∧
    (BackendCall.can_multi_conn ∈ (protocol_common_open b ro (Connection.fresh sr) e f).calls ↔
      b.thread_model > NBDKIT_THREAD_MODEL_SERIALIZE_CONNECTIONS) ∧
    (has_flag (protocol_common_open b ro (Connection.fresh sr) e f).flags
      NBD_FLAG_SEND_DF = true ↔ sr = true) ∧
    (protocol_common_open b ro (Connection.fresh sr) e f).flags < 512 := by
  have her : export_readonly b ro (Connection.fresh sr) = (ro || b.can_write == 0) := by
    simp [export_readonly, Connection.fresh]
  have h5a : export_readonly b ro (Connection.fresh sr) = false →
      b.can_zero ≠ -1 ∧ b.can_trim ≠ -1 ∧ b.can_fua ≠ -1 := by
    rw [her]
    intro h
    simp only [Bool.or_eq_false_iff, beq_eq_false_iff_ne] at h
    exact h5 h.1 h.2
  obtain ⟨c1, c2, _, c4, c5, _⟩ :=
    open_success b ro (Connection.fresh sr) e f h1 h2 h3 h4 h5a h8 h9 h11 h12
  have hb := flag_mask_bits (ro || b.can_write == 0)
    (!export_readonly b ro (Connection.fresh sr) && b.can_zero != 0)
    (!export_readonly b ro (Connection.fresh sr) && b.can_trim != 0)
    (!export_readonly b ro (Connection.fresh sr) && b.can_fua != 0)
    (b.can_flush != 0) (b.is_rotational != 0)
    (decide (b.thread_model > NBDKIT_THREAD_MODEL_SERIALIZE_CONNECTIONS)
      && b.can_multi_conn != 0)
    (Connection.fresh sr).structured_replies
  obtain ⟨b0, b1, b2, b3, b4, b5, b6, b7, b8, b9⟩ := hb
  rw [c5]
  unfold open_flags
  rw [b0, b1, b2, b3, b4, b5, b6, b7, b8, c4, her]
  rw [her] at b9
  refine ⟨c1, ?_, rfl, ?_, ?_, ?_, ?_, ?_, ?_, ?_, ?_, ?_, b9⟩
  · rw [c2]
    exact Int.toNat_of_nonneg h3
  · simp
  · simp
  · simp
  · simp
  · simp
  · simp
  · simp
  · unfold call_order write_order common_order
    by_cases htm : b.thread_model > NBDKIT_THREAD_MODEL_SERIALIZE_CONNECTIONS <;>
      cases (ro || b.can_write == 0) <;> simp [htm]
  · simp [Connection.fresh]

/-- Witness for C8: the sample backend, opened writable on a fresh connection that
negotiated structured replies. -/
theorem open_flags_exact_witness :
    (protocol_common_open sampleBackend false (Connection.fresh true) 0 0).ret = 0 ∧
    ((protocol_common_open sampleBackend false (Connection.fresh true) 0 0).exportsize : Int)
      = sampleBackend.get_size :=
  have h := open_flags_exact sampleBackend false true 0 0 (by decide) (by decide)
    (by decide) (by decide) (fun _ _ => by decide) (by decide) (by decide)
    (fun _ => by decide) (by decide)
  ⟨h.1, h.2.1⟩

/-- C9 as stated fails: the backend cannot write (`can_write` returns 0) and its
`can_flush` reports an error.  The routine fails, yet the connection's `readonly` boolean,
false on entry, is true afterwards. -/
theorem open_failure_changes_conn :
    (∃ c ∈ (protocol_common_open { sampleBackend with can_write := 0, can_flush := -1 }
        false (Connection.fresh false) 7 9).calls,
      Backend.reports_error { sampleBackend with can_write := 0, can_flush := -1 } c = true) ∧
    (protocol_common_open { sampleBackend with can_write := 0, can_flush := -1 } false
        (Connection.fresh false) 7 9).ret = -1 ∧
    (Connection.fresh false).readonly = false ∧
    (protocol_common_open { sampleBackend with can_write := 0, can_flush := -1 } false
        (Connection.fresh false) 7 9).conn.readonly = true := by
  refine ⟨⟨BackendCall.can_flush, ?_, ?_⟩, ?_, ?_, ?_⟩ <;> decide

/-- C9 amended: if a backend call made by `protocol_common_open` reports an error, the
routine returns failure and the exportsize and flags outputs are not written; of the
connection's booleans none is cleared (one that was true is still true, and the
structured-replies flag is unchanged), and they all have their entry values when the
error comes from open, prepare, get_size or can_write. -/
theorem open_failure_frame (b : Backend) (ro : Bool) (conn : Connection) (e f : Nat)
    (herr : ∃ c ∈ (protocol_common_open b ro conn e f).calls, b.reports_error c = true) :
    (protocol_common_open b ro conn e f).ret = -1 ∧
    (protocol_common_open b ro conn e f).exportsize = e ∧
    (protocol_common_open b ro conn e f).flags = f ∧
    Connection.le conn (protocol_common_open b ro conn e f).conn ∧
    ((b.open_ ro = -1 ∨ b.prepare = -1 ∨ b.get_size = -1 ∨ b.can_write = -1) →
      (protocol_common_open b ro conn e f).conn = conn) := by
  obtain ⟨c, hc, hce⟩ := herr
  have hany : (queried b ro conn).any b.stops = true := by
    rw [← take_through_any, ← (open_calls b ro conn e f).1]
    exact List.any_eq_true.mpr ⟨c, hc, by simp [Backend.stops, hce]⟩
  have hret : (protocol_common_open b ro conn e f).ret = -1 := by
    rw [(open_calls b ro conn e f).2.1, hany]
    rfl
  obtain ⟨hle, hfr⟩ := open_frame b ro conn e f
  have hout : (protocol_common_open b ro conn e f).exportsize = e ∧
      (protocol_common_open b ro conn e f).flags = f := by
    rcases hfr with h | h
    · rw [hret] at h
      cases h
    · exact h.2
  refine ⟨hret, hout.1, hout.2, hle, ?_⟩
  intro h
  unfold protocol_common_open
  by_cases h1 : b.open_ ro = -1
  · simp [h1]
  by_cases h2 : b.prepare = -1
  · simp [h1, h2]
  by_cases h3 : b.get_size = -1
  · simp [h1, h2, h3]
  by_cases h3b : b.get_size < 0
  · simp [h1, h2, h3, h3b]
  by_cases h4 : b.can_write = -1
  · simp [h1, h2, h3, h3b, h4]
  · simp [h1, h2, h3, h4] at h

/-- Witness for C9 amended: a backend whose `can_flush` reports an error. -/
theorem open_failure_frame_witness :
    (protocol_common_open { sampleBackend with can_flush := -1 } false
        (Connection.fresh false) 7 9).ret = -1 ∧
    (protocol_common_open { sampleBackend with can_flush := -1 } false
        (Connection.fresh false) 7 9).exportsize = 7 ∧
    (protocol_common_open { sampleBackend with can_flush := -1 } false
        (Connection.fresh false) 7 9).flags = 9 :=
  have h := open_failure_frame { sampleBackend with can_flush := -1 } false
    (Connection.fresh false) 7 9 ⟨BackendCall.can_flush, by decide, by decide⟩
  ⟨h.1, h.2.1, h.2.2.1⟩

theorem take_through_eq_self {α : Type} (p : α → Bool) (l : List α)
    (h : l.any p = false) : take_through p l = l := by
  induction l with
  | nil => rfl
  | cons x xs ih =>
    simp only [List.any_cons, Bool.or_eq_false_iff] at h
    simp [take_through, h.1, ih h.2]

theorem call_order_nodup (ro w m : Bool) : (call_order ro w m).Nodup := by
  cases ro <;> cases w <;> cases m <;> decide

/-- C10: the backend calls made by `protocol_common_open` form a prefix of the fixed order
open, prepare, get_size, can_write, [can_zero, can_trim, can_fua], can_flush,
is_rotational, thread_model, [can_multi_conn], can_extents with the optional calls kept
or left out (and the whole of it when the routine succeeds); no call is made twice; a
call that reports an error, or a `get_size` call that returns an invalid size, is the
last call made; if open fails it is the only call, if prepare fails only open and prepare
are called; and the routine returns failure exactly when some call made reported an error
or the size was invalid. -/
theorem open_call_order (b : Backend) (ro : Bool) (conn : Connection) (e f : Nat) :
    (∃ w m, (protocol_common_open b ro conn e f).calls <+: call_order ro w m ∧
      ((protocol_common_open b ro conn e f).ret = 0 →
        (protocol_common_open b ro conn e f).calls = call_order ro w m)) ∧
    (∀ w m, List.Sublist (call_order ro w m)
      [BackendCall.open_ ro, BackendCall.prepare, BackendCall.get_size,
        BackendCall.can_write, BackendCall.can_zero, BackendCall.can_trim,
        BackendCall.can_fua, BackendCall.can_flush, BackendCall.is_rotational,
        BackendCall.thread_model, BackendCall.can_multi_conn, BackendCall.can_extents]) ∧
    (protocol_common_open b ro conn e f).calls.Nodup ∧
    (∀ c ∈ (protocol_common_open b ro conn e f).calls, b.stops c = true →
      (protocol_common_open b ro conn e f).calls.getLast? = some c) ∧
    (b.open_ ro = -1 →
      (protocol_common_open b ro conn e f).calls = [BackendCall.open_ ro]) ∧
    (b.open_ ro ≠ -1 → b.prepare = -1 →
      (protocol_common_open b ro conn e f).calls
        = [BackendCall.open_ ro, BackendCall.prepare]) ∧
    ((protocol_common_open b ro conn e f).ret = -1 ↔
      ((∃ c ∈ (protocol_common_open b ro conn e f).calls, b.reports_error c = true) ∨
        (BackendCall.get_size ∈ (protocol_common_open b ro conn e f).calls ∧
          b.get_size < 0))) ∧
    ((protocol_common_open b ro conn e f).ret = 0 ∨
      (protocol_common_open b ro conn e f).ret = -1) := by
  obtain ⟨hcalls, hret, _⟩ := open_calls b ro conn e f
  have hpre : (protocol_common_open b ro conn e f).calls <+: queried b ro conn := by
    rw [hcalls]
    exact take_through_isPrefix _ _
  have hiff : (protocol_common_open b ro conn e f).ret = -1 ↔
      (protocol_common_open b ro conn e f).calls.any b.stops = true := by
    rw [hcalls, take_through_any, hret]
    cases (queried b ro conn).any b.stops <;> simp
  refine ⟨⟨_, _, hpre, ?_⟩, ?_, ?_, ?_, ?_, ?_, ?_, ?_⟩
  · intro h0
    rw [hret] at h0
    have hany : (queried b ro conn).any b.stops = false := by
      cases hq : (queried b ro conn).any b.stops
      · rfl
      · rw [hq] at h0
        simp at h0
    rw [hcalls]
    exact take_through_eq_self _ _ hany
  · intro w m
    cases ro <;> cases w <;> cases m <;> decide
  · exact (call_order_nodup _ _ _).sublist hpre.sublist
  · intro c hc hp
    rw [hcalls] at hc ⊢
    exact take_through_last _ _ c hc hp
  · intro h1
    simp [protocol_common_open, h1]
  · intro h1 h2
    simp [protocol_common_open, h1, h2]
  · rw [hiff, List.any_eq_true]
    constructor
    · rintro ⟨c, hc, hs⟩
      unfold Backend.stops at hs
      simp only [Bool.or_eq_true, Bool.and_eq_true, beq_iff_eq, decide_eq_true_eq] at hs
      rcases hs with hs | ⟨hs1, hs2⟩
      · exact Or.inl ⟨c, hc, hs⟩
      · rw [hs1] at hc
        exact Or.inr ⟨hc, hs2⟩
    · rintro (⟨c, hc, hs⟩ | ⟨hc, hs⟩)
      · exact ⟨c, hc, by simp [Backend.stops, hs]⟩
      · exact ⟨BackendCall.get_size, hc, by simp [hs]⟩
  · rw [hret]
    cases (queried b ro conn).any b.stops <;> simp

end Handshake

namespace Checkwrite

/-! ## Claims about open, the capability functions and allocation failures -/

@[simp] theorem queryEnv_pread (content : Nat → Nat) (ce : Int)
    (exts : Nat → Nat → List Extent) (h : List Call) (count offset flags : Nat) :
    (queryEnv content ce exts).pread h count offset flags
      = .ok ((List.range count).map (fun i => content (offset + i))) := rfl

@[simp] theorem queryEnv_can_extents (content : Nat → Nat) (ce : Int)
    (exts : Nat → Nat → List Extent) (h : List Call) :
    (queryEnv content ce exts).can_extents h = ce := rfl

@[simp] theorem queryEnv_extents (content : Nat → Nat) (ce : Int)
    (exts : Nat → Nat → List Extent) (h : List Call) (count offset flags : Nat) :
    (queryEnv content ce exts).extents h count offset flags = .ok (exts count offset) := rfl

@[simp] theorem queryEnv_malloc (content : Nat → Nat) (ce : Int)
    (exts : Nat → Nat → List Extent) (h : List Call) (n : Nat) :
    (queryEnv content ce exts).malloc h n = none := rfl

@[simp] theorem queryEnv_extents_new (content : Nat → Nat) (ce : Int)
    (exts : Nat → Nat → List Extent) (h : List Call) (a b : Nat) :
    (queryEnv content ce exts).extents_new h a b = true := rfl

/-- C11 (the code departs from the claim): the backend honours the contract, answering
every extents query at `offset` with one extent of four bytes that starts at `offset`,
not flagged ZERO, and all its reads succeed and return zero.  For the window `[0, 8)` the
extents path of `checkwrite_trim_zero` does not terminate: after the read of `[0, 4)` it
repeats a zero-length read at offset 4 whatever the fuel, and never makes a second
extents query. -/
theorem checkwrite_trim_zero_contract_spins (fuel : Nat) :
    (checkwrite_trim_zero (queryEnv (fun _ => 0) 1 (fun _ offset => [⟨offset, 4, 0⟩]))
      fuel 8 0 0 0 []).ret = none := by
  rcases fuel with _ | _ | n
  · simp [checkwrite_trim_zero, extents_path]
  · simp [checkwrite_trim_zero, extents_path, extent_loop, read_loop, add64, U64]
  · obtain ⟨tr2, h2⟩ := read_loop_spin
      (queryEnv (fun _ => 0) 1 (fun _ offset => [⟨offset, 4, 0⟩])) 4 4 4 0
      (fun _ => rfl) (fun _ => ⟨_, rfl⟩) (by decide) (by decide) (by decide) (by decide)
      n [Call.can_extents, Call.extents 8 0 0, Call.pread 4 0 0]
    have h4 : read_loop (queryEnv (fun _ => 0) 1 (fun _ offset => [⟨offset, 4, 0⟩]))
        (n + 1) 4 8 0 0 [Call.can_extents, Call.extents 8 0 0]
        = Loop.ret { ret := none, err := 0, trace := tr2 } := by
      rw [← h2, read_loop]
      simp [MIN3, MIN, MAX_REQUEST_SIZE, sub64, U64, sub32, U32, add64]
      intro hz
      exact absurd hz (by decide)
    simp [checkwrite_trim_zero, extents_path, extent_loop, add64, U64, h4]

/-- C13: whatever `readonly` value and export name `checkwrite_open` is given, it calls
the wrapped backend's open exactly once, with `readonly = 1` and the same export name, and
it returns `NULL` if and only if that call returns -1. -/
theorem checkwrite_open_readonly (next : Int → String → Int) (readonly : Int)
    (exportname : String) (is_tls : Int) :
    (checkwrite_open next readonly exportname is_tls).calls
      = [{ readonly := 1, exportname := exportname }] ∧
    ((checkwrite_open next readonly exportname is_tls).handle = Handle.NULL ↔
      next 1 exportname = -1) := by
  unfold checkwrite_open
  by_cases h : next 1 exportname = -1 <;> simp [h]

/-- C14: whatever the wrapped backend's own capability answers, the filter's `can_write`,
`can_flush` and `can_trim` return 1, `can_fua` returns NBDKIT_FUA_NATIVE and `can_zero`
returns NBDKIT_ZERO_NATIVE, none of them -1, and none issues a call on the wrapped
backend; the filter's flush returns 0 for every flags value and leaves `*err` and the
wrapped backend alone. -/
theorem capabilities_unconditional (next_ops : NextCaps) (env : Env) (flags : Nat)
    (err : Int) (tr : List Call) :
    checkwrite_can_write next_ops tr = { ret := 1, trace := tr } ∧
    checkwrite_can_flush next_ops tr = { ret := 1, trace := tr } ∧
    checkwrite_can_trim next_ops tr = { ret := 1, trace := tr } ∧
    checkwrite_can_fua next_ops tr = { ret := NBDKIT_FUA_NATIVE, trace := tr } ∧
    checkwrite_can_zero next_ops tr = { ret := NBDKIT_ZERO_NATIVE, trace := tr } ∧
    NBDKIT_FUA_NATIVE ≠ -1 ∧ NBDKIT_ZERO_NATIVE ≠ -1 ∧
    checkwrite_flush env flags err tr = { ret := some 0, err := err, trace := tr } :=
  ⟨rfl, rfl, rfl, rfl, rfl, by decide, by decide, rfl⟩

/-- C19 (the code departs from the claim): when `nbdkit_extents_new` returns `NULL` on the
extents path, `checkwrite_trim_zero` returns -1 after the `can_extents` call, but it does
not write the error code: `*err` still holds the value it had on entry, here 0. -/
theorem extents_new_failure_leaves_err (fuel : Nat) :
    checkwrite_trim_zero
      { sampleEnv (fun _ => 0) 1 [] with extents_new := fun _ _ _ => false }
      (fuel + 1) 8 0 0 0 []
      = { ret := some (-1), err := 0, trace := [Call.can_extents] } := by
  simp [checkwrite_trim_zero, extents_path, sampleEnv]

end Checkwrite

namespace Handshake

/-! ## Claims about `protocol_handshake` and the connection's booleans -/

/-- C16: for either value of `newstyle`, `protocol_handshake` takes the request lock
once, runs exactly one variant exchange (oldstyle iff `newstyle` is false), releases the
lock once, and returns that exchange's result, whatever it is; the lock is not held when
it returns. -/
theorem protocol_handshake_steps {σ : Type} (newstyle : Bool)
    (protocol_handshake_oldstyle protocol_handshake_newstyle : σ → Int × σ) (conn : σ) :
    (protocol_handshake newstyle protocol_handshake_oldstyle protocol_handshake_newstyle
        conn).events
      = [HandshakeEvent.lock_request,
          (if newstyle then HandshakeEvent.protocol_handshake_newstyle
            else HandshakeEvent.protocol_handshake_oldstyle),
          HandshakeEvent.unlock_request] ∧
    (protocol_handshake newstyle protocol_handshake_oldstyle protocol_handshake_newstyle
        conn).ret
      = (if newstyle then (protocol_handshake_newstyle conn).1
          else (protocol_handshake_oldstyle conn).1) ∧
    lock_held false
      (protocol_handshake newstyle protocol_handshake_oldstyle protocol_handshake_newstyle
        conn).events = false := by
  cases newstyle <;> simp [protocol_handshake, lock_held]

/-- C20: after a successful `protocol_common_open` on a fresh connection, the connection's
booleans agree with the published flags and the backend's answers: `readonly` with
READ_ONLY, `can_zero` with SEND_WRITE_ZEROES, `can_trim` with SEND_TRIM, `can_fua` with
SEND_FUA, `can_flush` with SEND_FLUSH, `is_rotational` with ROTATIONAL, `can_multi_conn`
with CAN_MULTI_CONN, `can_extents` with the backend's `can_extents` being non-zero; and a
read-only connection has `can_zero`, `can_trim` and `can_fua` all false. -/
theorem open_conn_agrees_with_flags (b : Backend) (ro sr : Bool) (e f : Nat)
    (hret : (protocol_common_open b ro (Connection.fresh sr) e f).ret = 0) :
    (protocol_common_open b ro (Connection.fresh sr) e f).conn.readonly
      = has_flag (protocol_common_open b ro (Connection.fresh sr) e f).flags
          NBD_FLAG_READ_ONLY ∧
    (protocol_common_open b ro (Connection.fresh sr) e f).conn.can_zero
      = has_flag (protocol_common_open b ro (Connection.fresh sr) e f).flags
          NBD_FLAG_SEND_WRITE_ZEROES ∧
    (protocol_common_open b ro (Connection.fresh sr) e f).conn.can_trim
      = has_flag (protocol_common_open b ro (Connection.fresh sr) e f).flags
          NBD_FLAG_SEND_TRIM ∧
    (protocol_common_open b ro (Connection.fresh sr) e f).conn.can_fua
      = has_flag (protocol_common_open b ro (Connection.fresh sr) e f).flags
          NBD_FLAG_SEND_FUA ∧
    (protocol_common_open b ro (Connection.fresh sr) e f).conn.can_flush
      = has_flag (protocol_common_open b ro (Connection.fresh sr) e f).flags
          NBD_FLAG_SEND_FLUSH ∧
    (protocol_common_open b ro (Connection.fresh sr) e f).conn.is_rotational
      = has_flag (protocol_common_open b ro (Connection.fresh sr) e f).flags
          NBD_FLAG_ROTATIONAL ∧
    (protocol_common_open b ro (Connection.fresh sr) e f).conn.can_multi_conn
      = has_flag (protocol_common_open b ro (Connection.fresh sr) e f).flags
          NBD_FLAG_CAN_MULTI_CONN ∧
    ((protocol_common_open b ro (Connection.fresh sr) e f).conn.can_extents = true ↔
      b.can_extents ≠ 0) ∧
    ((protocol_common_open b ro (Connection.fresh sr) e f).conn.readonly = true →
      (protocol_common_open b ro (Connection.fresh sr) e f).conn.can_zero = false ∧
      (protocol_common_open b ro (Connection.fresh sr) e f).conn.can_trim = false ∧
      (protocol_common_open b ro (Connection.fresh sr) e f).conn.can_fua = false) := by
  obtain ⟨g1, g2, g3, g4, g5, g8, g9, g11, g12⟩ :=
    (open_ok_iff b ro (Connection.fresh sr) e f).mp hret
  obtain ⟨_, _, _, _, c5, c6⟩ :=
    open_success b ro (Connection.fresh sr) e f g1 g2 g3 g4 g5 g8 g9 g11 g12
  have her : export_readonly b ro (Connection.fresh sr) = (ro || b.can_write == 0) := by
    simp [export_readonly, Connection.fresh]
  obtain ⟨_, b1, b2, b3, b4, b5, b6, b7, _, _⟩ := flag_mask_bits (ro || b.can_write == 0)
    (!export_readonly b ro (Connection.fresh sr) && b.can_zero != 0)
    (!export_readonly b ro (Connection.fresh sr) && b.can_trim != 0)
    (!export_readonly b ro (Connection.fresh sr) && b.can_fua != 0)
    (b.can_flush != 0) (b.is_rotational != 0)
    (decide (b.thread_model > NBDKIT_THREAD_MODEL_SERIALIZE_CONNECTIONS)
      && b.can_multi_conn != 0)
    (Connection.fresh sr).structured_replies
  rw [c5, c6]
  unfold open_flags
  rw [b1, b2, b3, b4, b5, b6, b7]
  unfold open_conn
  rw [her]
  simp only [Connection.fresh, Bool.false_or]
  refine ⟨trivial, trivial, trivial, trivial, trivial, trivial, trivial, by simp, ?_⟩
  intro h
  simp [h]

/-- Witness for C20: the sample backend on a fresh connection. -/
theorem open_conn_agrees_with_flags_witness :
    (protocol_common_open sampleBackend false (Connection.fresh false) 0 0).conn.readonly
      = has_flag (protocol_common_open sampleBackend false (Connection.fresh false) 0 0).flags
          NBD_FLAG_READ_ONLY ∧
    (protocol_common_open sampleBackend false (Connection.fresh false) 0 0).conn.can_zero
      = has_flag (protocol_common_open sampleBackend false (Connection.fresh false) 0 0).flags
          NBD_FLAG_SEND_WRITE_ZEROES :=
  have h := open_conn_agrees_with_flags sampleBackend false false 0 0 (by decide)
  ⟨h.1, h.2.1⟩

end Handshake

namespace Checkwrite

/-! ## Sequences of pwrite requests -/

theorem serve_pwrite_trace_irrelevant (env : Env) (content : Nat → Nat)
    (hread : ∀ h count offset, env.pread h count offset 0
      = .ok ((List.range count).map (fun i => content (offset + i))))
    (hmalloc : ∀ h n, env.malloc h n = none)
    (buf : List Nat) (count offset flags : Nat) (err : Int) (tr : List Call) :
    (checkwrite_pwrite env buf count offset flags err tr).ret
      = (if memcmp_ne buf ((List.range count).map (fun i => content (offset + i))) count
          then some (-1) else some 0) ∧
    (checkwrite_pwrite env buf count offset flags err tr).err
      = (if memcmp_ne buf ((List.range count).map (fun i => content (offset + i))) count
          then EIO else err) := by
  unfold checkwrite_pwrite
  rw [hmalloc, hread]
  simp only []
  split <;> simp [data_does_not_match]

/-- C15: for a backend that holds the bytes `content`, whose reads succeed, every pwrite
request of a sequence sent through the filter has the result (return value and error
code) it has when issued alone on a fresh history: 0 when its payload equals the content
at its offset, -1 with EIO otherwise; so a request that failed with the mismatch error
changes the outcome of no later request. -/
theorem pwrite_requests_independent (env : Env) (content : Nat → Nat) (fuel : Nat)
    (reqs : List Request) (err : Int) (tr : List Call)
    (hread : ∀ h count offset, env.pread h count offset 0
      = .ok ((List.range count).map (fun i => content (offset + i))))
    (hmalloc : ∀ h n, env.malloc h n = none)
    (hpw : ∀ r ∈ reqs, ∃ buf count offset flags, r = Request.pwrite buf count offset flags) :
    (serve env fuel reqs err tr).map (fun o => (o.ret, o.err))
      = reqs.map (fun r => ((filter env fuel r err []).ret, (filter env fuel r err []).err)) ∧
    (∀ buf count offset flags, Request.pwrite buf count offset flags ∈ reqs →
      (filter env fuel (Request.pwrite buf count offset flags) err []).ret
        = (if buf.take count = (List.range count).map (fun i => content (offset + i))
            then some 0 else some (-1)) ∧
      (filter env fuel (Request.pwrite buf count offset flags) err []).err
        = (if buf.take count = (List.range count).map (fun i => content (offset + i))
            then err else EIO)) := by
  constructor
  · induction reqs generalizing tr with
    | nil => rfl
    | cons r rs ih =>
      obtain ⟨buf, count, offset, flags, hr⟩ := hpw r (List.mem_cons_self _ _)
      have ih2 := ih (filter env fuel r err tr).trace
        (fun x hx => hpw x (List.mem_cons_of_mem _ hx))
      simp only [serve, List.map_cons, ih2]
      subst hr
      have h1 := serve_pwrite_trace_irrelevant env content hread hmalloc buf count offset
        flags err tr
      have h2 := serve_pwrite_trace_irrelevant env content hread hmalloc buf count offset
        flags err []
      simp only [filter]
      rw [h1.1, h1.2, h2.1, h2.2]
  · intro buf count offset flags _
    have h2 := serve_pwrite_trace_irrelevant env content hread hmalloc buf count offset
      flags err []
    simp only [filter]
    rw [h2.1, h2.2]
    have htake : List.take count ((List.range count).map (fun i => content (offset + i)))
        = (List.range count).map (fun i => content (offset + i)) := by
      apply List.take_of_length_le
      simp
    unfold memcmp_ne
    rw [htake]
    by_cases hb : buf.take count = (List.range count).map (fun i => content (offset + i))
    · simp [hb]
    · simp [hb]

theorem range_map_zero (n : Nat) :
    (List.range n).map (fun _ => 0) = List.replicate n 0 := by
  simp [List.map_const']

theorem take_replicate_self (n : Nat) :
    List.take n (List.replicate n 0) = List.replicate n 0 := by
  simp

theorem take_set_ne_replicate (n : Nat) (hn : 10 < n) :
    List.take n ((List.replicate n 0).set 10 1) ≠ List.replicate n 0 := by
  intro hc
  have h := congrArg (fun l => l[10]?) hc
  simp [List.getElem?_take, List.getElem?_set, List.getElem?_replicate, hn] at h

/-- Witness for C15: a backend of zero bytes; a matching 4096-byte write at offset 0
succeeds, a write that differs at byte 10 fails with the mismatch error, and a following
matching write at offset 8192 succeeds. -/
theorem pwrite_requests_independent_witness :
    (serve (sampleEnv (fun _ => 0) 0 []) 0
        [Request.pwrite (List.replicate 4096 0) 4096 0 0,
          Request.pwrite ((List.replicate 4096 0).set 10 1) 4096 0 0,
          Request.pwrite (List.replicate 4096 0) 4096 8192 0] 0 []).map
        (fun o => (o.ret, o.err))
      = [(some 0, 0), (some (-1), EIO), (some 0, 0)] := by
  have h := pwrite_requests_independent (sampleEnv (fun _ => 0) 0 []) (fun _ => 0) 0
    [Request.pwrite (List.replicate 4096 0) 4096 0 0,
      Request.pwrite ((List.replicate 4096 0).set 10 1) 4096 0 0,
      Request.pwrite (List.replicate 4096 0) 4096 8192 0] 0 []
    (fun _ _ _ => rfl) (fun _ _ => rfl)
    (by
      intro r hr
      rcases List.mem_cons.mp hr with h | hr
      · exact ⟨_, _, _, _, h⟩
      rcases List.mem_cons.mp hr with h | hr
      · exact ⟨_, _, _, _, h⟩
      rcases List.mem_cons.mp hr with h | hr
      · exact ⟨_, _, _, _, h⟩
      · cases hr)
  have h1 := h.2 (List.replicate 4096 0) 4096 0 0 (List.mem_cons_self _ _)
  have h2 := h.2 ((List.replicate 4096 0).set 10 1) 4096 0 0
    (List.mem_cons_of_mem _ (List.mem_cons_self _ _))
  have h3 := h.2 (List.replicate 4096 0) 4096 8192 0
    (List.mem_cons_of_mem _ (List.mem_cons_of_mem _ (List.mem_cons_self _ _)))
  rw [range_map_zero 4096, take_replicate_self 4096, if_pos rfl, if_pos rfl] at h1
  rw [range_map_zero 4096, if_neg (take_set_ne_replicate 4096 (by decide)),
    if_neg (take_set_ne_replicate 4096 (by decide))] at h2
  rw [range_map_zero 4096, take_replicate_self 4096, if_pos rfl, if_pos rfl] at h3
  rw [h.1]
  simp only [List.map_cons, List.map_nil]
  rw [h1.1, h1.2, h2.1, h2.2, h3.1, h3.2]

end Checkwrite

namespace Checkwrite

/-! ## A zero-verification stops at the first call that fails or reads a non-zero byte -/

theorem quiet_append (env : Env) (h a b : List Call) :
    quiet env h (a ++ b) ↔ quiet env h a ∧ quiet env (h ++ a) b := by
  induction a generalizing h with
  | nil => simp [quiet]
  | cons c cs ih =>
    have hh : h ++ c :: cs = h ++ [c] ++ cs := by simp
    show env.stop_code h c = none ∧ quiet env (h ++ [c]) (cs ++ b) ↔
      (env.stop_code h c = none ∧ quiet env (h ++ [c]) cs) ∧ quiet env (h ++ c :: cs) b
    rw [ih, hh, and_assoc]

theorem quiet_singleton (env : Env) (h : List Call) (c : Call) :
    quiet env h [c] ↔ env.stop_code h c = none := by
  simp [quiet]

theorem stop_code_pread_error (env : Env) (h : List Call) (n o f : Nat) (e : Int)
    (he : env.pread h n o f = .error e) : env.stop_code h (Call.pread n o f) = some e := by
  simp [Env.stop_code, Env.fail_code, he]

theorem stop_code_pread_nonzero (env : Env) (h : List Call) (n o f : Nat) (buf : List Nat)
    (he : env.pread h n o f = .ok buf) (hz : is_zero buf n = false) :
    env.stop_code h (Call.pread n o f) = some EIO := by
  simp [Env.stop_code, Env.fail_code, Env.reads_nonzero, he, hz]

theorem stop_code_pread_zero (env : Env) (h : List Call) (n o f : Nat) (buf : List Nat)
    (he : env.pread h n o f = .ok buf) (hz : is_zero buf n = true) :
    env.stop_code h (Call.pread n o f) = none := by
  simp [Env.stop_code, Env.fail_code, Env.reads_nonzero, he, hz]

theorem stop_code_extents_error (env : Env) (h : List Call) (n o f : Nat) (e : Int)
    (he : env.extents h n o f = .error e) :
    env.stop_code h (Call.extents n o f) = some e := by
  simp [Env.stop_code, Env.fail_code, he]

theorem stop_code_extents_ok (env : Env) (h : List Call) (n o f : Nat) (exts : List Extent)
    (he : env.extents h n o f = .ok exts) :
    env.stop_code h (Call.extents n o f) = none := by
  simp [Env.stop_code, Env.fail_code, Env.reads_nonzero, he]

theorem stop_code_can_extents (env : Env) (h : List Call) :
    env.stop_code h Call.can_extents = none := by
  simp [Env.stop_code, Env.fail_code, Env.reads_nonzero]

theorem stops_right_quiet (env : Env) (tr : List Call) (ret : Option Int) (err : Int) :
    Outcome.stops_right env tr { ret := ret, err := err, trace := tr } :=
  ⟨[], by simp, Or.inl trivial⟩

theorem stops_right_last (env : Env) (tr : List Call) (c : Call) (e : Int)
    (hc : env.stop_code tr c = some e) :
    Outcome.stops_right env tr { ret := some (-1), err := e, trace := tr ++ [c] } :=
  ⟨[c], rfl, Or.inr ⟨[], c, e, rfl, trivial, by simpa using hc, rfl, rfl⟩⟩

theorem stops_right_after (env : Env) (tr a : List Call) (o : Outcome)
    (ha : quiet env tr a) (ho : o.stops_right env (tr ++ a)) : o.stops_right env tr := by
  obtain ⟨new, hnew, h⟩ := ho
  refine ⟨a ++ new, by rw [hnew, List.append_assoc], ?_⟩
  rcases h with h | ⟨pre, c, e, hpre, hq, hc, hr, he⟩
  · exact Or.inl ((quiet_append env tr a new).mpr ⟨ha, h⟩)
  · refine Or.inr ⟨a ++ pre, c, e, by rw [hpre, List.append_assoc],
      (quiet_append env tr a pre).mpr ⟨ha, hq⟩, ?_, hr, he⟩
    rw [← List.append_assoc]
    exact hc

theorem loop_stops_right_after (env : Env) (tr a : List Call) (l : Loop)
    (ha : quiet env tr a) (hl : l.stops_right env (tr ++ a)) : l.stops_right env tr := by
  cases l with
  | next c o t =>
    obtain ⟨new, hnew, hq⟩ := hl
    exact ⟨a ++ new, by rw [hnew, List.append_assoc],
      (quiet_append env tr a new).mpr ⟨ha, hq⟩⟩
  | ret o => exact stops_right_after env tr a o ha hl

theorem read_loop_stops_right (env : Env) (fuel : Nat) :
    ∀ neo count offset err tr,
      (read_loop env fuel neo count offset err tr).stops_right env tr := by
  induction fuel with
  | zero =>
    intro neo count offset err tr
    unfold read_loop
    split
    · exact ⟨[], by simp, trivial⟩
    · exact stops_right_quiet env tr none err
  | succ n ih =>
    intro neo count offset err tr
    unfold read_loop
    split
    · exact ⟨[], by simp, trivial⟩
    · simp only
      split
      · exact stops_right_quiet env tr _ _
      · split
        · rename_i e he
          exact stops_right_last env tr _ e (stop_code_pread_error env tr _ _ _ e he)
        · rename_i buf he
          split
          · rename_i hz
            exact stops_right_last env tr _ EIO
              (stop_code_pread_nonzero env tr _ _ _ buf he (by simpa using hz))
          · rename_i hz
            exact loop_stops_right_after env tr [_] _
              ((quiet_singleton env tr _).mpr
                (stop_code_pread_zero env tr _ _ _ buf he (by simpa using hz)))
              (ih _ _ _ _ _)

theorem extent_loop_stops_right (env : Env) (fuel : Nat) (es : List Extent) :
    ∀ count offset err tr,
      (extent_loop env fuel es count offset err tr).stops_right env tr := by
  induction es with
  | nil =>
    intro count offset err tr
    exact ⟨[], by simp, trivial⟩
  | cons e es ih =>
    intro count offset err tr
    unfold extent_loop
    split
    · exact ⟨[], by simp, trivial⟩
    · split
      · exact ih _ _ _ _
      · split
        · exact ⟨[], by simp, trivial⟩
        · simp only
          split
          · exact ih _ _ _ _
          · have h := read_loop_stops_right env fuel (add64 e.offset e.length) count offset
              err tr
            split
            · rename_i o heq
              rw [heq] at h
              exact h
            · rename_i c2 o2 tr2 heq
              rw [heq] at h
              obtain ⟨new, hnew, hq⟩ := h
              subst hnew
              exact loop_stops_right_after env tr new _ hq (ih _ _ _ _)

theorem extents_path_stops_right (env : Env) (fuel : Nat) :
    ∀ count offset err tr,
      (extents_path env fuel count offset err tr).stops_right env tr := by
  induction fuel with
  | zero =>
    intro count offset err tr
    unfold extents_path
    split <;> exact stops_right_quiet env tr _ _
  | succ n ih =>
    intro count offset err tr
    unfold extents_path
    split
    · exact stops_right_quiet env tr _ _
    · simp only
      split
      · exact stops_right_quiet env tr _ _
      · split
        · rename_i e he
          exact stops_right_last env tr _ e (stop_code_extents_error env tr _ _ _ e he)
        · rename_i exts he
          have hq1 : quiet env tr [Call.extents count offset 0] :=
            (quiet_singleton env tr _).mpr (stop_code_extents_ok env tr _ _ _ exts he)
          have h := extent_loop_stops_right env n exts count offset err
            (tr ++ [Call.extents count offset 0])
          split
          · rename_i o heq
            rw [heq] at h
            exact stops_right_after env tr _ o hq1 h
          · rename_i c2 o2 tr2 heq
            rw [heq] at h
            obtain ⟨new, hnew, hq⟩ := h
            subst hnew
            have hq2 : quiet env tr ([Call.extents count offset 0] ++ new) :=
              (quiet_append env tr _ new).mpr ⟨hq1, hq⟩
            have h3 := ih c2 o2 err (tr ++ [Call.extents count offset 0] ++ new)
            have hh : tr ++ [Call.extents count offset 0] ++ new
                = tr ++ ([Call.extents count offset 0] ++ new) := List.append_assoc _ _ _
            rw [hh] at h3 ⊢
            exact stops_right_after env tr _ _ hq2 h3

theorem slow_path_stops_right (env : Env) (fuel : Nat) :
    ∀ count offset err tr,
      (slow_path env fuel count offset err tr).stops_right env tr := by
  induction fuel with
  | zero =>
    intro count offset err tr
    unfold slow_path
    split <;> exact stops_right_quiet env tr _ _
  | succ n ih =>
    intro count offset err tr
    unfold slow_path
    split
    · exact stops_right_quiet env tr _ _
    · simp only
      split
      · rename_i e he
        exact stops_right_last env tr _ e (stop_code_pread_error env tr _ _ _ e he)
      · rename_i buf he
        split
        · rename_i hz
          exact stops_right_last env tr _ EIO
            (stop_code_pread_nonzero env tr _ _ _ buf he (by simpa using hz))
        · rename_i hz
          exact stops_right_after env tr [_] _
            ((quiet_singleton env tr _).mpr
              (stop_code_pread_zero env tr _ _ _ buf he (by simpa using hz)))
            (ih _ _ _ _)

theorem checkwrite_trim_zero_stops_right (env : Env) (fuel count offset flags : Nat)
    (err : Int) (tr : List Call) :
    (checkwrite_trim_zero env fuel count offset flags err tr).stops_right env tr := by
  have hq : quiet env tr [Call.can_extents] :=
    (quiet_singleton env tr _).mpr (stop_code_can_extents env tr)
  unfold checkwrite_trim_zero
  split
  · exact stops_right_after env tr _ _ hq (extents_path_stops_right env fuel _ _ _ _)
  · split
    · exact ⟨[Call.can_extents], rfl, Or.inl hq⟩
    · exact stops_right_after env tr _ _ hq (slow_path_stops_right env fuel _ _ _ _)

theorem quiet_at (env : Env) (h new pre post : List Call) (c : Call)
    (hq : quiet env h new) (hnew : new = pre ++ c :: post) :
    env.stop_code (h ++ pre) c = none := by
  subst hnew
  exact ((quiet_append env h pre (c :: post)).mp hq).2.1

theorem snoc_split {α : Type} (pre post pre2 : List α) (c c2 : α)
    (h : pre ++ c :: post = pre2 ++ [c2]) :
    (post = [] ∧ pre = pre2 ∧ c = c2) ∨ (∃ post2, pre2 = pre ++ c :: post2) := by
  rcases List.eq_nil_or_concat post with hp | ⟨init, l, hp⟩
  · subst hp
    have h2 := List.append_inj' h rfl
    exact Or.inl ⟨rfl, h2.1, by simpa using h2.2⟩
  · subst hp
    have h3 : (pre ++ c :: init) ++ [l] = pre2 ++ [c2] := by
      rw [← h]
      simp
    exact Or.inr ⟨init, (List.append_inj' h3 rfl).1.symm⟩

/-- A run that stops right returns -1 with the code of the first call that fails or reads
a non-zero byte, and that call is the last one it issues. -/
theorem stops_right_at (env : Env) (tr : List Call) (o : Outcome)
    (ho : o.stops_right env tr) (pre post : List Call) (c : Call) (e : Int)
    (htrace : o.trace = tr ++ pre ++ c :: post)
    (hc : env.stop_code (tr ++ pre) c = some e) :
    post = [] ∧ o.ret = some (-1) ∧ o.err = e := by
  obtain ⟨new, hnew, h⟩ := ho
  have hn : new = pre ++ c :: post := by
    rw [hnew, List.append_assoc] at htrace
    exact List.append_cancel_left htrace
  rcases h with hq | ⟨pre2, c2, e2, hp2, hq2, hc2, hr, he⟩
  · rw [quiet_at env tr new pre post c hq hn] at hc
    cases hc
  · rw [hn] at hp2
    rcases snoc_split pre post pre2 c c2 hp2 with ⟨h1, h2, h3⟩ | ⟨post2, h4⟩
    · subst h2 h3
      rw [hc] at hc2
      cases hc2
      exact ⟨h1, hr, he⟩
    · rw [quiet_at env tr pre2 pre post2 c hq2 h4] at hc
      cases hc

theorem stop_code_of_fail_code (env : Env) (h : List Call) (c : Call) (e : Int)
    (hf : env.fail_code h c = some e) : env.stop_code h c = some e := by
  simp [Env.stop_code, hf]

/-- C12: in every call of `checkwrite_pwrite` or `checkwrite_trim_zero`, a wrapped pread or
extents call that fails with the error code `e` is the last call issued on the wrapped
backend, and the operation returns -1 with `*err = e`, not the mismatch code; for
`checkwrite_pwrite` the outcome then does not depend on the caller's buffer (nothing is
compared). -/
theorem backend_failure_propagates (env : Env) (fuel : Nat) (buf : List Nat)
    (count offset flags : Nat) (err : Int) (tr : List Call) :
    (∀ pre c post e,
      (checkwrite_pwrite env buf count offset flags err tr).trace = tr ++ pre ++ c :: post →
      env.fail_code (tr ++ pre) c = some e →
      post = [] ∧
      (checkwrite_pwrite env buf count offset flags err tr).ret = some (-1) ∧
      (checkwrite_pwrite env buf count offset flags err tr).err = e ∧
      ∀ buf2, checkwrite_pwrite env buf2 count offset flags err tr
        = checkwrite_pwrite env buf count offset flags err tr) ∧
    (∀ pre c post e,
      (checkwrite_trim_zero env fuel count offset flags err tr).trace
        = tr ++ pre ++ c :: post →
      env.fail_code (tr ++ pre) c = some e →
      post = [] ∧
      (checkwrite_trim_zero env fuel count offset flags err tr).ret = some (-1) ∧
      (checkwrite_trim_zero env fuel count offset flags err tr).err = e) := by
  constructor
  · intro pre c post e htrace hf
    unfold checkwrite_pwrite at htrace ⊢
    cases hm : env.malloc tr count with
    | some e1 =>
      simp only [hm, List.append_assoc] at htrace
      have := List.self_eq_append_right.mp htrace
      simp at this
    | none =>
      cases hp : env.pread tr count offset 0 with
      | error e1 =>
        simp only [hm, hp, List.append_assoc] at htrace
        have h1 := List.append_cancel_left htrace
        cases pre with
        | nil =>
          simp only [List.nil_append, List.cons.injEq] at h1
          obtain ⟨h2, h3⟩ := h1
          subst h2
          simp only [List.append_nil, Env.fail_code, hp, Option.some.injEq] at hf
          subst hf
          simp [hm, hp, h3.symm]
        | cons x xs => simp at h1
      | ok d =>
        have htr : (match env.malloc tr count with
            | some e => ({ ret := some (-1), err := e, trace := tr } : Outcome)
            | none =>
              match env.pread tr count offset 0 with
              | .error e => { ret := some (-1), err := e,
                              trace := tr ++ [Call.pread count offset 0] }
              | .ok expected =>
                if memcmp_ne buf expected count then
                  data_does_not_match (tr ++ [Call.pread count offset 0])
                else { ret := some 0, err := err,
                       trace := tr ++ [Call.pread count offset 0] }).trace
            = tr ++ [Call.pread count offset 0] := by
          simp only [hm, hp]
          split <;> rfl
        rw [htr, List.append_assoc] at htrace
        have h1 := List.append_cancel_left htrace
        cases pre with
        | nil =>
          simp only [List.nil_append, List.cons.injEq] at h1
          obtain ⟨h2, _⟩ := h1
          subst h2
          simp [Env.fail_code, hp] at hf
        | cons x xs => simp at h1
  · intro pre c post e htrace hf
    exact stops_right_at env tr _
      (checkwrite_trim_zero_stops_right env fuel count offset flags err tr)
      pre post c e htrace (stop_code_of_fail_code env _ c e hf)

/-- Witness for C12: a backend without extents support whose preads fail with code 28. -/
theorem backend_failure_propagates_witness :
    ([] : List Call) = [] ∧
    (checkwrite_trim_zero (failingEnv 28 0 []) 1 8 0 0 0 []).ret = some (-1) ∧
    (checkwrite_trim_zero (failingEnv 28 0 []) 1 8 0 0 0 []).err = 28 :=
  (backend_failure_propagates (failingEnv 28 0 []) 1 [] 8 0 0 0 []).2
    [Call.can_extents] (Call.pread 8 0 0) [] 28 (by decide) (by decide)

end Checkwrite

namespace Checkwrite

/-! ## Every pread stays inside the requested window -/

theorem allNew_refl (P : Call → Prop) (tr : List Call) : AllNew P tr tr :=
  ⟨[], by simp, by simp⟩

theorem allNew_trans {P : Call → Prop} {a b c : List Call} (h1 : AllNew P a b)
    (h2 : AllNew P b c) : AllNew P a c := by
  obtain ⟨n1, rfl, hn1⟩ := h1
  obtain ⟨n2, rfl, hn2⟩ := h2
  refine ⟨n1 ++ n2, by simp, ?_⟩
  intro x hx
  rcases List.mem_append.mp hx with h | h
  · exact hn1 x h
  · exact hn2 x h

theorem allNew_snoc (P : Call → Prop) (tr : List Call) (c : Call) (h : P c) :
    AllNew P tr (tr ++ [c]) :=
  ⟨[c], rfl, by simpa using h⟩

theorem MIN_le_left (a b : Nat) : MIN a b ≤ a := by
  unfold MIN
  split <;> omega

theorem MIN_le_right (a b : Nat) : MIN a b ≤ b := by
  unfold MIN
  split <;> omega

theorem MIN3_le (a b c : Nat) : MIN3 a b c ≤ a ∧ MIN3 a b c ≤ b ∧ MIN3 a b c ≤ c := by
  unfold MIN3
  have h1 := MIN_le_left a (MIN b c)
  have h2 := MIN_le_right a (MIN b c)
  have h3 := MIN_le_left b c
  have h4 := MIN_le_right b c
  omega

theorem sub32_eq (c n : Nat) (hn : n ≤ c) (hc : c < U32) : sub32 c n = c - n := by
  unfold sub32 U32 at *
  omega

theorem add64_eq (a b : Nat) (h : a + b < U64) : add64 a b = a + b := by
  unfold add64 U64 at *
  omega

/-- One update `count -= n; offset += n` with `n ≤ count` keeps the remaining window
anchored at the end `hi` of the requested one. -/
theorem window_step (lo hi count offset n : Nat) (hc : count < U32) (hhi : hi ≤ U64)
    (hn : n ≤ count) (hlo : lo ≤ offset) (hend : offset + count = hi) :
    sub32 count n < U32 ∧
    (sub32 count n = 0 ∨ (lo ≤ add64 offset n ∧ add64 offset n + sub32 count n = hi)) := by
  rw [sub32_eq count n hn hc]
  refine ⟨by omega, ?_⟩
  by_cases h0 : count - n = 0
  · exact Or.inl h0
  · right
    rw [add64_eq offset n (by omega)]
    omega

theorem read_loop_window (env : Env) (lo hi : Nat) (hhi : hi ≤ U64) (fuel : Nat) :
    ∀ neo count offset err tr, count < U32 →
      (count = 0 ∨ (lo ≤ offset ∧ offset + count = hi)) →
      AllNew (in_window lo hi) tr (read_loop env fuel neo count offset err tr).trace ∧
      ∀ c2 o2 t2, read_loop env fuel neo count offset err tr = Loop.next c2 o2 t2 →
        c2 < U32 ∧ (c2 = 0 ∨ (lo ≤ o2 ∧ o2 + c2 = hi)) := by
  induction fuel with
  | zero =>
    intro neo count offset err tr hc hinv
    unfold read_loop
    split
    · refine ⟨allNew_refl _ tr, ?_⟩
      intro c2 o2 t2 h
      cases h
      exact ⟨hc, hinv⟩
    · refine ⟨allNew_refl _ tr, ?_⟩
      intro c2 o2 t2 h
      cases h
  | succ n ih =>
    intro neo count offset err tr hc hinv
    unfold read_loop
    split
    · refine ⟨allNew_refl _ tr, ?_⟩
      intro c2 o2 t2 h
      cases h
      exact ⟨hc, hinv⟩
    · rename_i hne
      obtain ⟨hlo, hend⟩ := hinv.resolve_left hne
      obtain ⟨m1, m2, _⟩ := MIN3_le MAX_REQUEST_SIZE count (sub64 neo offset)
      have hw : in_window lo hi
          (Call.pread (MIN3 MAX_REQUEST_SIZE count (sub64 neo offset)) offset 0) := by
        refine ⟨m1, hlo, ?_⟩
        omega
      simp only
      split
      · refine ⟨allNew_refl _ tr, ?_⟩
        intro c2 o2 t2 h
        cases h
      · split
        · refine ⟨allNew_snoc _ tr _ hw, ?_⟩
          intro c2 o2 t2 h
          cases h
        · split
          · refine ⟨allNew_snoc _ tr _ hw, ?_⟩
            intro c2 o2 t2 h
            cases h
          · obtain ⟨s1, s2⟩ := window_step lo hi count offset
              (MIN3 MAX_REQUEST_SIZE count (sub64 neo offset)) hc hhi m2 hlo hend
            obtain ⟨i1, i2⟩ := ih neo _ _ err
              (tr ++ [Call.pread (MIN3 MAX_REQUEST_SIZE count (sub64 neo offset)) offset 0])
              s1 s2
            exact ⟨allNew_trans (allNew_snoc _ tr _ hw) i1, i2⟩

theorem extent_loop_window (env : Env) (lo hi : Nat) (hhi : hi ≤ U64) (fuel : Nat)
    (es : List Extent) :
    ∀ count offset err tr, count < U32 →
      (count = 0 ∨ (lo ≤ offset ∧ offset + count = hi)) →
      AllNew (in_window lo hi) tr (extent_loop env fuel es count offset err tr).trace ∧
      ∀ c2 o2 t2, extent_loop env fuel es count offset err tr = Loop.next c2 o2 t2 →
        c2 < U32 ∧ (c2 = 0 ∨ (lo ≤ o2 ∧ o2 + c2 = hi)) := by
  induction es with
  | nil =>
    intro count offset err tr hc hinv
    refine ⟨allNew_refl _ tr, ?_⟩
    intro c2 o2 t2 h
    cases h
    exact ⟨hc, hinv⟩
  | cons e es ih =>
    intro count offset err tr hc hinv
    unfold extent_loop
    split
    · refine ⟨allNew_refl _ tr, ?_⟩
      intro c2 o2 t2 h
      cases h
      exact ⟨hc, hinv⟩
    · rename_i hne
      obtain ⟨hlo, hend⟩ := hinv.resolve_left hne
      split
      · exact ih _ _ _ _ hc hinv
      · split
        · refine ⟨allNew_refl _ tr, ?_⟩
          intro c2 o2 t2 h
          cases h
          exact ⟨hc, hinv⟩
        · simp only
          split
          · obtain ⟨s1, s2⟩ := window_step lo hi count offset
              (MIN count (sub64 (add64 e.offset e.length) offset)) hc hhi
              (MIN_le_left _ _) hlo hend
            exact ih _ _ _ _ s1 s2
          · obtain ⟨r1, r2⟩ := read_loop_window env lo hi hhi fuel
              (add64 e.offset e.length) count offset err tr hc hinv
            split
            · rename_i o heq
              rw [heq] at r1
              refine ⟨r1, ?_⟩
              intro c2 o2 t2 h
              cases h
            · rename_i c3 o3 t3 heq
              rw [heq] at r1
              obtain ⟨s1, s2⟩ := r2 c3 o3 t3 heq
              obtain ⟨i1, i2⟩ := ih c3 o3 err t3 s1 s2
              exact ⟨allNew_trans r1 i1, i2⟩

theorem extents_path_window (env : Env) (lo hi : Nat) (hhi : hi ≤ U64) (fuel : Nat) :
    ∀ count offset err tr, count < U32 →
      (count = 0 ∨ (lo ≤ offset ∧ offset + count = hi)) →
      AllNew (in_window lo hi) tr (extents_path env fuel count offset err tr).trace := by
  induction fuel with
  | zero =>
    intro count offset err tr hc hinv
    unfold extents_path
    split <;> exact allNew_refl _ tr
  | succ n ih =>
    intro count offset err tr hc hinv
    unfold extents_path
    split
    · exact allNew_refl _ tr
    · simp only
      split
      · exact allNew_refl _ tr
      · split
        · exact allNew_snoc _ tr (Call.extents count offset 0) trivial
        · rename_i exts _
          obtain ⟨r1, r2⟩ := extent_loop_window env lo hi hhi n exts count offset err
            (tr ++ [Call.extents count offset 0]) hc hinv
          split
          · rename_i o heq
            rw [heq] at r1
            exact allNew_trans (allNew_snoc _ tr (Call.extents count offset 0) trivial) r1
          · rename_i c3 o3 t3 heq
            rw [heq] at r1
            obtain ⟨s1, s2⟩ := r2 c3 o3 t3 heq
            exact allNew_trans (allNew_trans (allNew_snoc _ tr (Call.extents count offset 0) trivial) r1)
              (ih c3 o3 err t3 s1 s2)

/-- The slow path reads consecutive chunks from `offset`, never past the end of the
window, and reaches the end of the window when it returns success. -/
theorem slow_path_consecutive (env : Env) (fuel : Nat) :
    ∀ count offset err tr, count < U32 → offset + count ≤ U64 →
      ∃ reads hi2, (slow_path env fuel count offset err tr).trace = tr ++ reads ∧
        Consecutive offset hi2 reads ∧ hi2 ≤ offset + count ∧
        ((slow_path env fuel count offset err tr).ret = some 0 → hi2 = offset + count) := by
  induction fuel with
  | zero =>
    intro count offset err tr hc hend
    unfold slow_path
    split
    · rename_i h0
      exact ⟨[], offset, by simp, rfl, by omega, fun _ => by omega⟩
    · exact ⟨[], offset, by simp, rfl, by omega, fun h => by cases h⟩
  | succ n ih =>
    intro count offset err tr hc hend
    unfold slow_path
    split
    · rename_i h0
      exact ⟨[], offset, by simp, rfl, by omega, fun _ => by omega⟩
    · rename_i hne
      have m1 := MIN_le_left MAX_REQUEST_SIZE count
      have m2 := MIN_le_right MAX_REQUEST_SIZE count
      have mpos : 0 < MIN MAX_REQUEST_SIZE count := by
        unfold MIN MAX_REQUEST_SIZE
        split <;> omega
      have hone : Consecutive offset (offset + MIN MAX_REQUEST_SIZE count)
          [Call.pread (MIN MAX_REQUEST_SIZE count) offset 0] :=
        ⟨_, rfl, mpos, m1, rfl⟩
      simp only
      split
      · exact ⟨[_], _, rfl, hone, by omega, fun h => by cases h⟩
      · split
        · exact ⟨[_], _, rfl, hone, by omega, fun h => by cases h⟩
        · have hs : sub32 count (MIN MAX_REQUEST_SIZE count)
              = count - MIN MAX_REQUEST_SIZE count := sub32_eq _ _ m2 hc
          by_cases hlast : MIN MAX_REQUEST_SIZE count = count
          · have h0 : sub32 count (MIN MAX_REQUEST_SIZE count) = 0 := by omega
            refine ⟨[_], offset + MIN MAX_REQUEST_SIZE count, ?_, hone, by omega,
              fun _ => by omega⟩
            rw [h0]
            cases n <;> simp [slow_path]
          · have ha : add64 offset (MIN MAX_REQUEST_SIZE count)
                = offset + MIN MAX_REQUEST_SIZE count := add64_eq _ _ (by omega)
            obtain ⟨reads, hi2, h1, h2, h3, h4⟩ := ih
              (sub32 count (MIN MAX_REQUEST_SIZE count))
              (add64 offset (MIN MAX_REQUEST_SIZE count)) err
              (tr ++ [Call.pread (MIN MAX_REQUEST_SIZE count) offset 0])
              (by omega) (by omega)
            refine ⟨Call.pread (MIN MAX_REQUEST_SIZE count) offset 0 :: reads, hi2,
              by rw [h1]; simp, ⟨_, rfl, mpos, m1, ?_⟩, by omega, fun h => ?_⟩
            · rw [← ha]
              exact h2
            · have := h4 h
              omega

theorem consecutive_in_window (lo hi : Nat) (reads : List Call) :
    ∀ a b, lo ≤ a → b ≤ hi → Consecutive a b reads → ∀ c ∈ reads, in_window lo hi c := by
  induction reads with
  | nil =>
    intro a b _ _ _ c hc
    cases hc
  | cons r rs ih =>
    intro a b ha hb hcons c hc
    obtain ⟨n, hr, hpos, hmax, hrest⟩ := hcons
    have hle : ∀ (l : List Call) (x y : Nat), Consecutive x y l → x ≤ y := by
      intro l
      induction l with
      | nil =>
        intro x y h
        exact Nat.le_of_eq h
      | cons z zs ihz =>
        intro x y h
        obtain ⟨m, _, _, _, hz⟩ := h
        have := ihz _ _ hz
        omega
    have hab := hle rs _ _ hrest
    rcases List.mem_cons.mp hc with h | h
    · rw [h, hr]
      exact ⟨hmax, ha, by omega⟩
    · exact ih (a + n) b (by omega) hb hrest c h

end Checkwrite

namespace Checkwrite

/-! ## What the extents path reads and what it skips -/

theorem allNew_mono {P Q : Call → Prop} (hPQ : ∀ c, P c → Q c) {a b : List Call}
    (h : AllNew P a b) : AllNew Q a b := by
  obtain ⟨new, hnew, hall⟩ := h
  exact ⟨new, hnew, fun c hc => hPQ c (hall c hc)⟩

theorem sub64_eq (a b : Nat) (hb : b ≤ a) (ha : a < U64) : sub64 a b = a - b := by
  unfold sub64 U64 at *
  omega

/-- The read loop of an extent only reads between the offset it starts from and the end
`neo` of the extent. -/
theorem read_loop_within (env : Env) (lo neo : Nat) (hneo : neo < U64) (fuel : Nat) :
    ∀ count offset err tr, lo ≤ offset → offset ≤ neo →
      AllNew (fun c => ∃ n o, c = Call.pread n o 0 ∧ lo ≤ o ∧ o + n ≤ neo) tr
        (read_loop env fuel neo count offset err tr).trace := by
  induction fuel with
  | zero =>
    intro count offset err tr _ _
    unfold read_loop
    split <;> exact allNew_refl _ tr
  | succ n ih =>
    intro count offset err tr hlo hle
    unfold read_loop
    split
    · exact allNew_refl _ tr
    · obtain ⟨_, _, m3⟩ := MIN3_le MAX_REQUEST_SIZE count (sub64 neo offset)
      have hs := sub64_eq neo offset hle hneo
      have hp : ∃ n o, Call.pread (MIN3 MAX_REQUEST_SIZE count (sub64 neo offset)) offset 0
          = Call.pread n o 0 ∧ lo ≤ o ∧ o + n ≤ neo :=
        ⟨_, _, rfl, hlo, by omega⟩
      simp only
      split
      · exact allNew_refl _ tr
      · split
        · exact allNew_snoc _ tr _ hp
        · split
          · exact allNew_snoc _ tr _ hp
          · have ha : add64 offset (MIN3 MAX_REQUEST_SIZE count (sub64 neo offset))
                = offset + MIN3 MAX_REQUEST_SIZE count (sub64 neo offset) :=
              add64_eq _ _ (by omega)
            exact allNew_trans (allNew_snoc _ tr _ hp)
              (ih _ _ err _ (by omega) (by omega))

/-- When the `for` loop reaches the body for the extent `e`, the extent contains the
current offset and its end has not wrapped. -/
theorem extent_reached (e : Extent) (offset : Nat) (he : e.offset < U64 ∧ e.length < U64)
    (h1 : ¬ add64 e.offset e.length ≤ offset) (h2 : ¬ e.offset > offset) :
    add64 e.offset e.length = e.offset + e.length ∧ e.offset ≤ offset ∧
      offset < e.offset + e.length ∧ e.offset + e.length < U64 := by
  unfold add64 U64 at *
  omega

/-- Every pread of one round of the extents path lies inside an extent of the answer
that is not flagged ZERO. -/
theorem extent_loop_within (env : Env) (fuel : Nat) (es : List Extent)
    (hwf : ∀ e ∈ es, e.offset < U64 ∧ e.length < U64) :
    ∀ count offset err tr,
      AllNew (fun c => ∃ n o, c = Call.pread n o 0 ∧ ∃ e ∈ es,
          e.type &&& NBDKIT_EXTENT_ZERO = 0 ∧ e.offset ≤ o ∧ o + n ≤ e.offset + e.length) tr
        (extent_loop env fuel es count offset err tr).trace := by
  induction es with
  | nil =>
    intro count offset err tr
    exact allNew_refl _ tr
  | cons e es ih =>
    have ih2 : ∀ count offset err tr,
        AllNew (fun c => ∃ n o, c = Call.pread n o 0 ∧ ∃ x ∈ e :: es,
            x.type &&& NBDKIT_EXTENT_ZERO = 0 ∧ x.offset ≤ o ∧ o + n ≤ x.offset + x.length) tr
          (extent_loop env fuel es count offset err tr).trace := by
      intro count offset err tr
      refine allNew_mono ?_ (ih (fun x hx => hwf x (List.mem_cons_of_mem _ hx)) count offset
        err tr)
      rintro c ⟨n, o, hc, x, hx, h⟩
      exact ⟨n, o, hc, x, List.mem_cons_of_mem _ hx, h⟩
    intro count offset err tr
    unfold extent_loop
    split
    · exact allNew_refl _ tr
    · split
      · exact ih2 _ _ _ _
      · rename_i h1
        split
        · exact allNew_refl _ tr
        · rename_i h2
          obtain ⟨hneo, hlo, _, hlt⟩ :=
            extent_reached e offset (hwf e (List.mem_cons_self _ _)) h1 h2
          simp only
          split
          · exact ih2 _ _ _ _
          · rename_i hz
            have hz0 : e.type &&& NBDKIT_EXTENT_ZERO = 0 := by
              by_contra hne
              exact hz hne
            have hr : AllNew (fun c => ∃ n o, c = Call.pread n o 0 ∧ ∃ x ∈ e :: es,
                x.type &&& NBDKIT_EXTENT_ZERO = 0 ∧ x.offset ≤ o ∧
                  o + n ≤ x.offset + x.length) tr
                (read_loop env fuel (add64 e.offset e.length) count offset err tr).trace := by
              refine allNew_mono ?_ (read_loop_within env e.offset (add64 e.offset e.length)
                (by rw [hneo]; exact hlt) fuel count offset err tr hlo (by omega))
              rintro c ⟨n, o, hc, ho1, ho2⟩
              exact ⟨n, o, hc, e, List.mem_cons_self _ _, hz0, ho1, by omega⟩
            split
            · rename_i o heq
              rw [heq] at hr
              exact hr
            · rename_i c3 o3 t3 heq
              rw [heq] at hr
              exact allNew_trans hr (ih2 _ _ _ _)

theorem zero_reads_append (env : Env) (h a b : List Call) :
    zero_reads env h (a ++ b) = zero_reads env h a ++ zero_reads env (h ++ a) b := by
  induction a generalizing h with
  | nil => simp [zero_reads]
  | cons c cs ih =>
    have hh : h ++ c :: cs = h ++ [c] ++ cs := by simp
    show _ ++ zero_reads env (h ++ [c]) (cs ++ b)
      = (_ ++ zero_reads env (h ++ [c]) cs) ++ zero_reads env (h ++ c :: cs) b
    rw [ih, hh]
    simp only [List.append_assoc]

theorem zero_extents_append (env : Env) (h a b : List Call) :
    zero_extents env h (a ++ b) = zero_extents env h a ++ zero_extents env (h ++ a) b := by
  induction a generalizing h with
  | nil => simp [zero_extents]
  | cons c cs ih =>
    have hh : h ++ c :: cs = h ++ [c] ++ cs := by simp
    show _ ++ zero_extents env (h ++ [c]) (cs ++ b)
      = (_ ++ zero_extents env (h ++ [c]) cs) ++ zero_extents env (h ++ c :: cs) b
    rw [ih, hh]
    simp only [List.append_assoc]

theorem covered_append (a b : List (Nat × Nat)) (p : Nat) :
    covered (a ++ b) p ↔ covered a p ∨ covered b p := by
  unfold covered
  constructor
  · rintro ⟨r, hr, h⟩
    rcases List.mem_append.mp hr with h1 | h1
    · exact Or.inl ⟨r, h1, h⟩
    · exact Or.inr ⟨r, h1, h⟩
  · rintro (⟨r, hr, h⟩ | ⟨r, hr, h⟩)
    · exact ⟨r, List.mem_append_left _ hr, h⟩
    · exact ⟨r, List.mem_append_right _ hr, h⟩

theorem in_extents_append (a b : List Extent) (p : Nat) :
    in_extents (a ++ b) p ↔ in_extents a p ∨ in_extents b p := by
  unfold in_extents
  constructor
  · rintro ⟨r, hr, h⟩
    rcases List.mem_append.mp hr with h1 | h1
    · exact Or.inl ⟨r, h1, h⟩
    · exact Or.inr ⟨r, h1, h⟩
  · rintro (⟨r, hr, h⟩ | ⟨r, hr, h⟩)
    · exact ⟨r, List.mem_append_left _ hr, h⟩
    · exact ⟨r, List.mem_append_right _ hr, h⟩

/-- When control falls out of the read loop of an extent, nothing remains to check and
every byte it passed over was read by a pread that returned only zero bytes. -/
theorem read_loop_covers (env : Env) (fuel : Nat) :
    ∀ neo count offset err tr, count < U32 → offset + count ≤ U64 →
      ∀ c2 o2 t2, read_loop env fuel neo count offset err tr = Loop.next c2 o2 t2 →
        c2 = 0 ∧ ∃ new, t2 = tr ++ new ∧
          ∀ p, offset ≤ p → p < offset + count → covered (zero_reads env tr new) p := by
  induction fuel with
  | zero =>
    intro neo count offset err tr hc hend c2 o2 t2 h
    unfold read_loop at h
    split at h
    · rename_i h0
      cases h
      exact ⟨h0, [], by simp, fun p h1 h2 => by omega⟩
    · cases h
  | succ n ih =>
    intro neo count offset err tr hc hend c2 o2 t2 h
    unfold read_loop at h
    split at h
    · rename_i h0
      cases h
      exact ⟨h0, [], by simp, fun p h1 h2 => by omega⟩
    · rename_i hne
      simp only at h
      split at h
      · cases h
      · split at h
        · cases h
        · rename_i buf he
          split at h
          · cases h
          · rename_i hz
            have hz1 : is_zero buf (MIN3 MAX_REQUEST_SIZE count (sub64 neo offset)) = true := by
              simpa using hz
            obtain ⟨_, m2, _⟩ := MIN3_le MAX_REQUEST_SIZE count (sub64 neo offset)
            have hs := sub32_eq count _ m2 hc
            have ha : sub32 count (MIN3 MAX_REQUEST_SIZE count (sub64 neo offset)) = 0 ∨
                add64 offset (MIN3 MAX_REQUEST_SIZE count (sub64 neo offset))
                  = offset + MIN3 MAX_REQUEST_SIZE count (sub64 neo offset) := by
              by_cases hlast : MIN3 MAX_REQUEST_SIZE count (sub64 neo offset) = count
              · left
                omega
              · right
                exact add64_eq _ _ (by omega)
            have hlt : add64 offset (MIN3 MAX_REQUEST_SIZE count (sub64 neo offset)) < U64 := by
              unfold add64 U64
              omega
            obtain ⟨i1, new, i2, i3⟩ := ih neo _ _ err _ (by omega)
              (by rcases ha with h0 | h1 <;> omega) c2 o2 t2 h
            refine ⟨i1, Call.pread (MIN3 MAX_REQUEST_SIZE count (sub64 neo offset)) offset 0
              :: new, by rw [i2]; simp, ?_⟩
            intro p hp1 hp2
            have hzr : zero_reads env tr
                (Call.pread (MIN3 MAX_REQUEST_SIZE count (sub64 neo offset)) offset 0 :: new)
                = [(offset, MIN3 MAX_REQUEST_SIZE count (sub64 neo offset))]
                  ++ zero_reads env
                    (tr ++ [Call.pread (MIN3 MAX_REQUEST_SIZE count (sub64 neo offset))
                      offset 0]) new := by
              simp [zero_reads, he, hz1]
            rw [hzr, covered_append]
            by_cases hfirst : p < offset + MIN3 MAX_REQUEST_SIZE count (sub64 neo offset)
            · exact Or.inl ⟨_, List.mem_singleton.mpr rfl, hp1, hfirst⟩
            · right
              rcases ha with h0 | h1
              · omega
              · exact i3 p (by omega) (by omega)

theorem extent_loop_zero (env : Env) (fuel : Nat) (es : List Extent) (offset : Nat)
    (err : Int) (tr : List Call) :
    extent_loop env fuel es 0 offset err tr = Loop.next 0 offset tr := by
  cases es <;> simp [extent_loop]

theorem in_zero_extents_cons (e : Extent) (es : List Extent) (p : Nat)
    (h : in_extents (es.filter (fun x => x.type &&& NBDKIT_EXTENT_ZERO != 0)) p) :
    in_extents ((e :: es).filter (fun x => x.type &&& NBDKIT_EXTENT_ZERO != 0)) p := by
  obtain ⟨x, hx, h1⟩ := h
  obtain ⟨hx1, hx2⟩ := List.mem_filter.mp hx
  exact ⟨x, List.mem_filter.mpr ⟨List.mem_cons_of_mem _ hx1, hx2⟩, h1⟩

/-- When control falls out of one round of the extents path, every byte it passed over
lies in an extent of the answer flagged ZERO, or was read by a pread that returned only
zero bytes. -/
theorem extent_loop_covers (env : Env) (fuel : Nat) (es : List Extent)
    (hwf : ∀ e ∈ es, e.offset < U64 ∧ e.length < U64) :
    ∀ count offset err tr, count < U32 → offset + count ≤ U64 →
      ∀ c2 o2 t2, extent_loop env fuel es count offset err tr = Loop.next c2 o2 t2 →
        c2 ≤ count ∧ (c2 = 0 ∨ o2 = offset + (count - c2)) ∧ ∃ new, t2 = tr ++ new ∧
          ∀ p, offset ≤ p → p < offset + (count - c2) →
            in_extents (es.filter (fun x => x.type &&& NBDKIT_EXTENT_ZERO != 0)) p ∨
              covered (zero_reads env tr new) p := by
  induction es with
  | nil =>
    intro count offset err tr hc hend c2 o2 t2 h
    cases h
    exact ⟨Nat.le_refl _, Or.inr (by omega), [], by simp, fun p h1 h2 => by omega⟩
  | cons e es ih =>
    have ih2 := ih (fun x hx => hwf x (List.mem_cons_of_mem _ hx))
    intro count offset err tr hc hend c2 o2 t2 h
    unfold extent_loop at h
    split at h
    · cases h
      exact ⟨Nat.le_refl _, Or.inr (by omega), [], by simp, fun p h1 h2 => by omega⟩
    · rename_i hne
      split at h
      · obtain ⟨i1, i2, new, i3, i4⟩ := ih2 count offset err tr hc hend c2 o2 t2 h
        refine ⟨i1, i2, new, i3, fun p h1 h2 => ?_⟩
        rcases i4 p h1 h2 with h5 | h5
        · exact Or.inl (in_zero_extents_cons e es p h5)
        · exact Or.inr h5
      · rename_i h1
        split at h
        · cases h
          exact ⟨Nat.le_refl _, Or.inr (by omega), [], by simp, fun p h1 h2 => by omega⟩
        · rename_i h2
          obtain ⟨hneo, hlo, hin, hlt⟩ :=
            extent_reached e offset (hwf e (List.mem_cons_self _ _)) h1 h2
          simp only at h
          split at h
          · rename_i hz
            have m1 := MIN_le_left count (sub64 (add64 e.offset e.length) offset)
            have m2 := MIN_le_right count (sub64 (add64 e.offset e.length) offset)
            have hs64 := sub64_eq (add64 e.offset e.length) offset (by omega) (by omega)
            have hs := sub32_eq count _ m1 hc
            have ha : sub32 count (MIN count (sub64 (add64 e.offset e.length) offset)) = 0 ∨
                add64 offset (MIN count (sub64 (add64 e.offset e.length) offset))
                  = offset + MIN count (sub64 (add64 e.offset e.length) offset) := by
              by_cases hlast : MIN count (sub64 (add64 e.offset e.length) offset) = count
              · left
                omega
              · right
                exact add64_eq _ _ (by omega)
            have hlt2 : add64 offset (MIN count (sub64 (add64 e.offset e.length) offset))
                < U64 := by
              unfold add64 U64
              omega
            obtain ⟨i1, i2, new, i3, i4⟩ := ih2 _ _ err tr (by omega)
              (by rcases ha with h0 | h3 <;> omega) c2 o2 t2 h
            refine ⟨by omega, ?_, new, i3, fun p hp1 hp2 => ?_⟩
            · by_cases hc2 : c2 = 0
              · exact Or.inl hc2
              · right
                have h3 := i2.resolve_left hc2
                rcases ha with h4 | h4
                · omega
                · omega
            · by_cases hfirst :
                  p < offset + MIN count (sub64 (add64 e.offset e.length) offset)
              · left
                refine ⟨e, List.mem_filter.mpr ⟨List.mem_cons_self _ _, ?_⟩, by omega,
                  by omega⟩
                simpa using hz
              · rcases ha with h4 | h4
                · omega
                · rcases i4 p (by omega) (by omega) with h5 | h5
                  · exact Or.inl (in_zero_extents_cons e es p h5)
                  · exact Or.inr h5
          · split at h
            · cases h
            · rename_i c3 o3 t3 heq
              obtain ⟨r1, new, r2, r3⟩ := read_loop_covers env fuel _ count offset err tr hc
                hend c3 o3 t3 heq
              subst r1
              rw [extent_loop_zero] at h
              cases h
              exact ⟨Nat.zero_le _, Or.inl rfl, new, r2,
                fun p hp1 hp2 => Or.inr (r3 p hp1 (by omega))⟩

theorem read_loop_not_success (env : Env) (fuel : Nat) :
    ∀ neo count offset err tr o, read_loop env fuel neo count offset err tr = Loop.ret o →
      o.ret ≠ some 0 := by
  induction fuel with
  | zero =>
    intro neo count offset err tr o h
    unfold read_loop at h
    split at h
    · cases h
    · cases h
      simp
  | succ n ih =>
    intro neo count offset err tr o h
    unfold read_loop at h
    split at h
    · cases h
    · simp only at h
      split at h
      · cases h
        simp
      · split at h
        · cases h
          simp
        · split at h
          · cases h
            simp [data_does_not_match]
          · exact ih _ _ _ _ _ o h

theorem extent_loop_not_success (env : Env) (fuel : Nat) (es : List Extent) :
    ∀ count offset err tr o, extent_loop env fuel es count offset err tr = Loop.ret o →
      o.ret ≠ some 0 := by
  induction es with
  | nil =>
    intro count offset err tr o h
    cases h
  | cons e es ih =>
    intro count offset err tr o h
    unfold extent_loop at h
    split at h
    · cases h
    · split at h
      · exact ih _ _ _ _ o h
      · split at h
        · cases h
        · simp only at h
          split at h
          · exact ih _ _ _ _ o h
          · split at h
            · rename_i o2 heq
              cases h
              exact read_loop_not_success env fuel _ _ _ _ _ o heq
            · exact ih _ _ _ _ o h

end Checkwrite

namespace Checkwrite

/-! ## Claims about what `checkwrite_trim_zero` reads -/

/-- When the extents path returns success, every byte of the window lies in an extent the
backend reported as ZERO, or was read by a pread that returned only zero bytes. -/
theorem extents_path_covers (env : Env)
    (hwf : ∀ h c o exts, env.extents h c o 0 = .ok exts →
      ∀ e ∈ exts, e.offset < U64 ∧ e.length < U64)
    (fuel : Nat) :
    ∀ count offset err tr, count < U32 → (count = 0 ∨ offset + count ≤ U64) →
      (extents_path env fuel count offset err tr).ret = some 0 →
      ∃ new, (extents_path env fuel count offset err tr).trace = tr ++ new ∧
        ∀ p, offset ≤ p → p < offset + count →
          in_extents (zero_extents env tr new) p ∨ covered (zero_reads env tr new) p := by
  induction fuel with
  | zero =>
    intro count offset err tr hc hend hret
    unfold extents_path at hret ⊢
    split
    · rename_i h0
      exact ⟨[], by simp, fun p h1 h2 => by omega⟩
    · rename_i hne
      simp [hne] at hret
  | succ n ih =>
    intro count offset err tr hc hend hret
    unfold extents_path at hret ⊢
    split
    · rename_i h0
      exact ⟨[], by simp, fun p h1 h2 => by omega⟩
    · rename_i hne
      have hend2 := hend.resolve_left hne
      simp only [hne, if_false] at hret
      simp only
      split
      · rename_i hnew
        simp [hnew] at hret
      · rename_i hnew
        simp only [hnew, if_false] at hret
        split
        · rename_i e he
          simp [he] at hret
        · rename_i exts he
          simp only [he] at hret
          split
          · rename_i o heq
            simp only [heq] at hret
            exact absurd hret (extent_loop_not_success env n exts _ _ _ _ o heq)
          · rename_i c3 o3 t3 heq
            simp only [heq] at hret
            obtain ⟨k1, k2, new1, k3, k4⟩ := extent_loop_covers env n exts
              (hwf tr count offset exts he) count offset err
              (tr ++ [Call.extents count offset 0]) hc hend2 c3 o3 t3 heq
            obtain ⟨new2, j1, j2⟩ := ih c3 o3 err t3 (by omega)
              (by rcases k2 with h0 | h1
                  · exact Or.inl h0
                  · right
                    omega) hret
            refine ⟨Call.extents count offset 0 :: (new1 ++ new2),
              by rw [j1, k3]; simp, fun p hp1 hp2 => ?_⟩
            have hze : zero_extents env tr (Call.extents count offset 0 :: (new1 ++ new2))
                = exts.filter (fun x => x.type &&& NBDKIT_EXTENT_ZERO != 0)
                  ++ (zero_extents env (tr ++ [Call.extents count offset 0]) new1
                    ++ zero_extents env t3 new2) := by
              simp only [zero_extents, he, zero_extents_append, k3]
            have hzr : zero_reads env tr (Call.extents count offset 0 :: (new1 ++ new2))
                = zero_reads env (tr ++ [Call.extents count offset 0]) new1
                    ++ zero_reads env t3 new2 := by
              simp only [zero_reads, zero_reads_append, k3, List.nil_append]
            rw [hze, hzr, in_extents_append, in_extents_append, covered_append]
            by_cases hfirst : p < offset + (count - c3)
            · rcases k4 p hp1 hfirst with h5 | h5
              · exact Or.inl (Or.inl h5)
              · exact Or.inr (Or.inl h5)
            · have hc3 : c3 ≠ 0 := by omega
              have ho3 := k2.resolve_left hc3
              rcases j2 p (by omega) (by omega) with h5 | h5
              · exact Or.inl (Or.inr (Or.inr h5))
              · exact Or.inr (Or.inr h5)

theorem disjoint_symm : Symmetric Extent.disjoint := by
  intro a b h
  unfold Extent.disjoint at *
  omega

/-- C17: on the extents path of `checkwrite_trim_zero`, (1) in every round, for an answer
of non-overlapping extents, no pread covers a byte of an extent flagged ZERO; (2) when the
function returns success, every byte of the window lies in an extent the backend reported
as ZERO or was read by a pread that returned only zero bytes; (3) a pread that returns a
non-zero byte is the last call issued, and the function then returns -1 with EIO. -/
theorem extents_path_reads_and_skips (env : Env) (fuel count offset flags : Nat)
    (err : Int) (tr : List Call)
    (hc : count < U32) (hend : offset + count ≤ U64)
    (hext : env.can_extents tr ≠ 0)
    (hwf : ∀ h c o exts, env.extents h c o 0 = .ok exts →
      ∀ e ∈ exts, e.offset < U64 ∧ e.length < U64) :
    (∀ fuel2 exts count2 offset2 err2 tr2,
      (∀ e ∈ exts, e.offset < U64 ∧ e.length < U64) → exts.Pairwise Extent.disjoint →
      ∃ new, (extent_loop env fuel2 exts count2 offset2 err2 tr2).trace = tr2 ++ new ∧
        ∀ n o f, Call.pread n o f ∈ new →
          ∀ z ∈ exts, z.type &&& NBDKIT_EXTENT_ZERO ≠ 0 →
            ∀ p, o ≤ p → p < o + n → ¬ (z.offset ≤ p ∧ p < z.offset + z.length)) ∧
    ((checkwrite_trim_zero env fuel count offset flags err tr).ret = some 0 →
      ∃ new, (checkwrite_trim_zero env fuel count offset flags err tr).trace = tr ++ new ∧
        ∀ p, offset ≤ p → p < offset + count →
          in_extents (zero_extents env tr new) p ∨ covered (zero_reads env tr new) p) ∧
    (∀ pre n o f post buf,
      (checkwrite_trim_zero env fuel count offset flags err tr).trace
        = tr ++ pre ++ Call.pread n o f :: post →
      env.pread (tr ++ pre) n o f = .ok buf → is_zero buf n = false →
      post = [] ∧
      (checkwrite_trim_zero env fuel count offset flags err tr).ret = some (-1) ∧
      (checkwrite_trim_zero env fuel count offset flags err tr).err = EIO) := by
  refine ⟨?_, ?_, ?_⟩
  · intro fuel2 exts count2 offset2 err2 tr2 hwf2 hpair
    obtain ⟨new, hnew, hall⟩ := extent_loop_within env fuel2 exts hwf2 count2 offset2 err2 tr2
    refine ⟨new, hnew, ?_⟩
    intro n o f hmem z hz hzero p hp1 hp2 hin
    obtain ⟨n2, o2, heq, e, he, he0, he1, he2⟩ := hall _ hmem
    cases heq
    have hne : z ≠ e := by
      intro h
      rw [h] at hzero
      exact hzero he0
    have hd := hpair.forall disjoint_symm hz he hne
    unfold Extent.disjoint at hd
    omega
  · intro hret
    unfold checkwrite_trim_zero at hret ⊢
    simp only [hext, if_true, ne_eq, not_false_eq_true] at hret ⊢
    obtain ⟨new, h1, h2⟩ := extents_path_covers env hwf fuel count offset err
      (tr ++ [Call.can_extents]) hc (Or.inr hend) hret
    refine ⟨Call.can_extents :: new, by rw [h1]; simp, fun p hp1 hp2 => ?_⟩
    have hze : zero_extents env tr (Call.can_extents :: new)
        = zero_extents env (tr ++ [Call.can_extents]) new := by
      simp [zero_extents]
    have hzr : zero_reads env tr (Call.can_extents :: new)
        = zero_reads env (tr ++ [Call.can_extents]) new := by
      simp [zero_reads]
    rw [hze, hzr]
    exact h2 p hp1 hp2
  · intro pre n o f post buf htrace hp hz
    exact stops_right_at env tr _
      (checkwrite_trim_zero_stops_right env fuel count offset flags err tr)
      pre post _ EIO htrace (stop_code_pread_nonzero env _ n o f buf hp hz)

/-- Witness for C17: a backend of zero bytes that reports `[0, 4)` as ZERO and `[4, 8)` as
not ZERO; the call on `[0, 8)` returns success. -/
theorem extents_path_reads_and_skips_witness :
    ∃ new, (checkwrite_trim_zero
        (sampleEnv (fun _ => 0) 1 [⟨0, 4, NBDKIT_EXTENT_ZERO⟩, ⟨4, 4, 0⟩]) 3 8 0 0 0 []).trace
        = [] ++ new ∧
      ∀ p, 0 ≤ p → p < 0 + 8 →
        in_extents (zero_extents
          (sampleEnv (fun _ => 0) 1 [⟨0, 4, NBDKIT_EXTENT_ZERO⟩, ⟨4, 4, 0⟩]) [] new) p ∨
        covered (zero_reads
          (sampleEnv (fun _ => 0) 1 [⟨0, 4, NBDKIT_EXTENT_ZERO⟩, ⟨4, 4, 0⟩]) [] new) p :=
  (extents_path_reads_and_skips
    (sampleEnv (fun _ => 0) 1 [⟨0, 4, NBDKIT_EXTENT_ZERO⟩, ⟨4, 4, 0⟩]) 3 8 0 0 0 []
    (by decide) (by decide) (by decide)
    (by
      intro h c o exts he e hm
      cases he
      rcases List.mem_cons.mp hm with h1 | hm
      · subst h1
        decide
      rcases List.mem_cons.mp hm with h1 | hm
      · subst h1
        decide
      · cases hm)).2.1 (by decide)

theorem slow_path_returns (env : Env)
    (hz : ∀ h n o, ∃ buf, env.pread h n o 0 = .ok buf ∧ is_zero buf n = true)
    (fuel : Nat) :
    ∀ count offset err tr, count < U32 → count ≤ fuel →
      (slow_path env fuel count offset err tr).ret = some 0 := by
  induction fuel with
  | zero =>
    intro count offset err tr hc hf
    have h0 : count = 0 := by omega
    subst h0
    simp [slow_path]
  | succ n ih =>
    intro count offset err tr hc hf
    unfold slow_path
    split
    · rfl
    · rename_i hne
      obtain ⟨buf, hb, hzb⟩ := hz tr (MIN MAX_REQUEST_SIZE count) offset
      have m2 := MIN_le_right MAX_REQUEST_SIZE count
      have mpos : 0 < MIN MAX_REQUEST_SIZE count := by
        unfold MIN MAX_REQUEST_SIZE
        split <;> omega
      have hs := sub32_eq count _ m2 hc
      simp only [hb, hzb, Bool.not_true, Bool.false_eq_true, if_false]
      exact ih _ _ err _ (by omega) (by omega)

/-- C18: for a window that does not pass 2^64, every pread issued by
`checkwrite_trim_zero`, on either path and whatever extents the backend returns, asks for
at most MAX_REQUEST_SIZE bytes, all inside `[offset, offset+count)`; on the slow path the
preads are consecutive non-empty chunks starting at `offset`, which end at `offset+count`
when the call returns success, as it does when every read succeeds with zero bytes and
the fuel covers the chunks; and no update `count -= n` wraps, `n` never exceeding the
remaining count. -/
theorem trim_zero_reads_in_window (env : Env) (fuel count offset flags : Nat)
    (err : Int) (tr : List Call)
    (hc : count < U32) (hend : offset + count ≤ U64) :
    (∃ new, (checkwrite_trim_zero env fuel count offset flags err tr).trace = tr ++ new ∧
      ∀ n o f, Call.pread n o f ∈ new →
        n ≤ MAX_REQUEST_SIZE ∧ offset ≤ o ∧ o + n ≤ offset + count) ∧
    (env.can_extents tr = 0 →
      ∃ reads hi2, (checkwrite_trim_zero env fuel count offset flags err tr).trace
          = tr ++ Call.can_extents :: reads ∧
        Consecutive offset hi2 reads ∧ hi2 ≤ offset + count ∧
        ((checkwrite_trim_zero env fuel count offset flags err tr).ret = some 0 →
          hi2 = offset + count)) ∧
    (env.can_extents tr = 0 →
      env.malloc (tr ++ [Call.can_extents]) (MIN MAX_REQUEST_SIZE count) = none →
      (∀ h n o, ∃ buf, env.pread h n o 0 = .ok buf ∧ is_zero buf n = true) →
      count ≤ fuel →
      (checkwrite_trim_zero env fuel count offset flags err tr).ret = some 0) ∧
    (∀ c x, c < U32 →
      MIN MAX_REQUEST_SIZE c ≤ c ∧
      sub32 c (MIN MAX_REQUEST_SIZE c) = c - MIN MAX_REQUEST_SIZE c ∧
      MIN3 MAX_REQUEST_SIZE c x ≤ c ∧
      sub32 c (MIN3 MAX_REQUEST_SIZE c x) = c - MIN3 MAX_REQUEST_SIZE c x ∧
      MIN c x ≤ c ∧ sub32 c (MIN c x) = c - MIN c x) := by
  have hslow : env.can_extents tr = 0 →
      ∃ reads hi2, (checkwrite_trim_zero env fuel count offset flags err tr).trace
          = tr ++ Call.can_extents :: reads ∧
        Consecutive offset hi2 reads ∧ hi2 ≤ offset + count ∧
        ((checkwrite_trim_zero env fuel count offset flags err tr).ret = some 0 →
          hi2 = offset + count) := by
    intro h0
    unfold checkwrite_trim_zero
    simp only [h0, ne_eq, not_true_eq_false, if_false]
    split
    · exact ⟨[], offset, by simp, rfl, by omega, fun h => by cases h⟩
    · obtain ⟨reads, hi2, h1, h2, h3, h4⟩ := slow_path_consecutive env fuel count offset err
        (tr ++ [Call.can_extents]) hc hend
      exact ⟨reads, hi2, by rw [h1]; simp, h2, h3, h4⟩
  refine ⟨?_, hslow, ?_, ?_⟩
  · by_cases h0 : env.can_extents tr = 0
    · obtain ⟨reads, hi2, h1, h2, h3, _⟩ := hslow h0
      refine ⟨Call.can_extents :: reads, h1, ?_⟩
      intro n o f hmem
      rcases List.mem_cons.mp hmem with h | h
      · cases h
      · exact consecutive_in_window offset (offset + count) reads offset hi2
          (Nat.le_refl _) h3 h2 _ h
    · unfold checkwrite_trim_zero
      simp only [h0, ne_eq, not_false_eq_true, if_true]
      obtain ⟨new, h1, h2⟩ := extents_path_window env offset (offset + count) hend fuel
        count offset err (tr ++ [Call.can_extents]) hc (Or.inr ⟨Nat.le_refl _, rfl⟩)
      refine ⟨Call.can_extents :: new, by rw [h1]; simp, ?_⟩
      intro n o f hmem
      rcases List.mem_cons.mp hmem with h | h
      · cases h
      · exact h2 _ h
  · intro h0 hm hz hf
    unfold checkwrite_trim_zero
    simp only [h0, ne_eq, not_true_eq_false, if_false, hm]
    exact slow_path_returns env hz fuel count offset err _ hc hf
  · intro c x hc2
    have m1 := MIN_le_right MAX_REQUEST_SIZE c
    obtain ⟨_, m2, _⟩ := MIN3_le MAX_REQUEST_SIZE c x
    have m3 := MIN_le_left c x
    exact ⟨m1, sub32_eq c _ m1 hc2, m2, sub32_eq c _ m2 hc2, m3, sub32_eq c _ m3 hc2⟩

/-- Witness for C18: a backend of zero bytes without extents support; the call on
`[0, 8)` reads the single chunk `[0, 8)` and returns success. -/
theorem trim_zero_reads_in_window_witness :
    (checkwrite_trim_zero (sampleEnv (fun _ => 0) 0 []) 8 8 0 0 0 []).ret = some 0 ∧
    ∃ reads hi2, (checkwrite_trim_zero (sampleEnv (fun _ => 0) 0 []) 8 8 0 0 0 []).trace
        = [] ++ Call.can_extents :: reads ∧
      Consecutive 0 hi2 reads ∧ hi2 ≤ 0 + 8 ∧
      ((checkwrite_trim_zero (sampleEnv (fun _ => 0) 0 []) 8 8 0 0 0 []).ret = some 0 →
        hi2 = 0 + 8) :=
  have h := trim_zero_reads_in_window (sampleEnv (fun _ => 0) 0 []) 8 8 0 0 0 []
    (by decide) (by decide)
  ⟨h.2.2.1 rfl rfl (fun _ n _ => ⟨_, rfl, by simp [is_zero]⟩) (Nat.le_refl _), h.2.1 rfl⟩

end Checkwrite
